import Mathlib

/-!
Shallow embedding of the inner-join ordering core of the Firebird query optimizer
(src/jrd/optimizer/InnerJoin.cpp) together with theorems settling the stated claims.

Modelling conventions:
* `double` costs and cardinalities are modelled as rationals (`ℚ`).
* The external `Retrieval` probe is an oracle: a pure function of the probed stream,
  the list of currently active streams in the compiler scratch, and the sort flag
  (the spec states the probe is deterministic given a fixed active set).
* The mutable state of one `InnerJoin` instance (`innerStreams` with their `used`
  flags, `joinedStreams`, `bestCount`, `bestCost`, `remainingStreams`, and the
  per-stream active bits of the compiler scratch) is threaded explicitly.
* `findBestOrder` is recursive in the source; it is embedded with explicit fuel,
  and fuel-insensitivity above the number of not-yet-used streams is proved.
* In addition to the state, `findBestOrder` returns a ghost trace: the cumulative
  cost `new_cost` at every visit that fills the last position
  (`position == remainingStreams`), i.e. one entry per full ordering the search
  enumerates.  `findJoinOrder` also reports (ghost) the list of stream indices that
  were tried as search seeds.  The ghost outputs do not influence the state.
* Declarations of `InnerJoin` that live in Optimizer.h (not among the sources) are
  modelled from the spec; each such definition is marked in its doc comment.
-/

attribute [local semireducible] Rat.add Rat.mul

set_option maxHeartbeats 1000000

namespace InnerJoin

/-- An edge of the inter-stream dependency graph (declared in Optimizer.h; fields
populated in `getIndexedRelationships`, InnerJoin.cpp lines 428-433): `stream` is the
dependent stream that becomes cheaper once the base stream is active. -/
structure IndexRelationship where
  stream : Nat
  unique : Bool
  cost : ℚ
  cardinality : ℚ
deriving DecidableEq, Repr, Inhabited

/-- Modelled from the spec: `IndexRelationship::cheaperThan` is declared in Optimizer.h,
which is not among the sources.  Spec §3: a unique relationship is always cheaper than a
non-unique one; within the same uniqueness class, lower `cost` wins. -/
def IndexRelationship.cheaperThan (a b : IndexRelationship) : Bool :=
  if a.unique = b.unique then decide (a.cost < b.cost) else a.unique

/-- Per-candidate-stream record (declared in Optimizer.h; fields populated by
`calculateStreamInfo` and `getIndexedRelationships`). -/
structure StreamInfo where
  stream : Nat
  baseCost : ℚ := 0
  baseSelectivity : ℚ := 0
  baseIndexes : Nat := 0
  baseUnique : Bool := false
  baseNavigated : Bool := false
  previousExpectedStreams : Nat := 0
  used : Bool := false
  indexedRelationships : List IndexRelationship := []
deriving DecidableEq, Repr, Inhabited

/-- Modelled from the spec: `StreamInfo::isIndependent` is declared in Optimizer.h, which
is not among the sources.  Spec §4.A: `isIndependent() ≡ previousExpectedStreams == 0`. -/
def StreamInfo.isIndependent (s : StreamInfo) : Bool :=
  s.previousExpectedStreams == 0

/-- Modelled from the spec: `StreamInfo::isFiltered` is declared in Optimizer.h, which is
not among the sources.  Spec §4.A: `isFiltered() ≡ baseIndexes > 0`. -/
def StreamInfo.isFiltered (s : StreamInfo) : Bool :=
  decide (0 < s.baseIndexes)

/-- Modelled from the spec: `StreamInfo::cheaperThan` is declared in Optimizer.h, which is
not among the sources.  Spec §3: an independent stream comes first, then a unique base
access, then lower `baseCost`; ties keep the order of arrival. -/
def StreamInfo.cheaperThan (a b : StreamInfo) : Bool :=
  if a.isIndependent = b.isIndependent then
    if a.baseUnique = b.baseUnique then decide (a.baseCost < b.baseCost)
    else a.baseUnique
  else a.isIndependent

/-- The ordering step at the end of `calculateStreamInfo` (InnerJoin.cpp lines 121-138):
unless a PLAN was enforced, and more than one stream is present, the stream list is
sorted by `StreamInfo::cheaperThan` (the spec prescribes a stable sort). -/
def calculateStreamInfoSort (plan : Bool) (streams : List StreamInfo) : List StreamInfo :=
  if plan = false ∧ 1 < streams.length then
    streams.mergeSort (fun a b => !StreamInfo.cheaperThan b a)
  else streams

/-- One slot of the `joinedStreams` array: `number` is the occupant on the path under
exploration, `bestStream` the occupant in the best order found so far. -/
structure JoinedStream where
  number : Nat := 0
  bestStream : Nat := 0
deriving DecidableEq, Repr, Inhabited

/-- The mutable state of one `InnerJoin` instance, threaded explicitly:
the StreamInfo store, the slot array, the best-order bookkeeping and the active
bits of the compiler scratch (as the list of active stream identifiers). -/
structure SearchState where
  innerStreams : List StreamInfo
  joinedStreams : List JoinedStream
  bestCount : Nat
  bestCost : ℚ
  remainingStreams : Nat
  active : List Nat
deriving DecidableEq, Repr

/-- The external Retrieval probe, abstracted as a deterministic oracle: given the probed
stream, the list of active streams and whether the sort clause is passed, it yields the
candidate cost and selectivity; `cardinality` is the base table cardinality
`csb_cardinality` of a stream. -/
structure Oracle where
  cost : Nat → List Nat → Bool → ℚ
  selectivity : Nat → List Nat → Bool → ℚ
  cardinality : Nat → ℚ

/-- The per-instance parameters: the PLAN flag, the optimizer's favor-first-rows flag and
the probe oracle. -/
structure Params where
  plan : Bool
  favorFirstRows : Bool
  oracle : Oracle

/-- Modelled from the spec: `MINIMUM_CARDINALITY` is defined in Optimizer.h, which is not
among the sources; spec §4.E step 3 floors the position cardinality at one. -/
def MINIMUM_CARDINALITY : ℚ := 1

/-- `InnerJoin::estimateCost` (InnerJoin.cpp lines 146-163): probe the stream under the
current active set, return the candidate cost and the resulting cardinality
(`csb_cardinality * selectivity`, floored at `MINIMUM_CARDINALITY`). -/
def estimateCost (o : Oracle) (active : List Nat) (stream : Nat) (start : Bool) : ℚ × ℚ :=
  (o.cost stream active start,
   max (o.cardinality stream * o.selectivity stream active start) MINIMUM_CARDINALITY)

/-- `tail->activate()` on the compiler scratch: set the active bit of a stream. -/
def activateStream (s : Nat) (active : List Nat) : List Nat :=
  if active.contains s then active else s :: active

/-- `tail->deactivate()` on the compiler scratch: clear the active bit of a stream. -/
def deactivateStream (s : Nat) (active : List Nat) : List Nat :=
  active.erase s

/-- Write the `used` flag of the StreamInfo at a list position (the source mutates
through the `StreamInfo*` pointer; positions play the role of pointers). -/
def setUsedAt : List StreamInfo → Nat → Bool → List StreamInfo
  | [], _, _ => []
  | s :: ss, 0, b => { s with used := b } :: ss
  | s :: ss, n + 1, b => s :: setUsedAt ss n b

/-- Restore the snapshot of `used` flags (InnerJoin.cpp lines 397-398). -/
def restoreUsed : List StreamInfo → List Bool → List StreamInfo
  | [], _ => []
  | s :: ss, [] => s :: ss
  | s :: ss, b :: bs => { s with used := b } :: restoreUsed ss bs

/-- `joinedStreams[position].number = stream` (InnerJoin.cpp line 282). -/
def setSlotNumber : Nat → Nat → List JoinedStream → List JoinedStream
  | _, _, [] => []
  | 0, id, slot :: js => { slot with number := id } :: js
  | n + 1, id, slot :: js => slot :: setSlotNumber n id js

/-- `joinedStreams[0].bestStream = stream` (InnerJoin.cpp line 205). -/
def setSlotBest : Nat → Nat → List JoinedStream → List JoinedStream
  | _, _, [] => []
  | 0, id, slot :: js => { slot with bestStream := id } :: js
  | n + 1, id, slot :: js => slot :: setSlotBest n id js

/-- Copy `number` into `bestStream` for every slot before `position`
(InnerJoin.cpp lines 308-313). -/
def commitSlots : Nat → List JoinedStream → List JoinedStream
  | 0, js => js
  | _ + 1, [] => []
  | n + 1, slot :: js => { slot with bestStream := slot.number } :: commitSlots n js

/-- The save-as-best step (InnerJoin.cpp lines 303-314): if the partial order is longer
than any previous one, or the same length and cheaper, record it as best. -/
def updateBest (position1 : Nat) (newCost : ℚ) (st : SearchState) : SearchState :=
  if st.bestCount < position1 ∨ (position1 = st.bestCount ∧ newCost < st.bestCost) then
    { st with bestCount := position1, bestCost := newCost,
              joinedStreams := commitSlots position1 st.joinedStreams }
  else st

/-- The recursion cut-off computed at InnerJoin.cpp lines 324-333: stop when every
remaining stream is placed, or when a full ordering is known and its cost is strictly
below the new cumulative cost. -/
def pruneFlag (st : SearchState) (position1 : Nat) (newCost : ℚ) : Bool :=
  position1 == st.remainingStreams ||
    (st.bestCount == st.remainingStreams && decide (st.bestCost < newCost))

/-- `InnerJoin::getStreamInfo` (InnerJoin.cpp lines 447-458): the first StreamInfo with
the given stream number.  The source asserts when the stream is unknown; the embedding
returns `none` and every caller skips, which never happens on well-formed states. -/
def getStreamInfo (streams : List StreamInfo) (id : Nat) : Option StreamInfo :=
  streams.find? (fun s => s.stream == id)

/-- Sorted insertion into an `IndexedRelationships` array.  Modelled from the spec:
the `SortedArray` container is declared outside the sources; spec §4.C/§4.E: a
relationship is inserted at its sorted position given by `cheaperThan`, cheapest first. -/
def insertSorted (r : IndexRelationship) : List IndexRelationship → List IndexRelationship
  | [] => [r]
  | p :: ps => if r.cheaperThan p then r :: p :: ps else p :: insertSorted r ps

/-- Remove the first relationship with the given target stream (`processList.remove(index)`
at InnerJoin.cpp line 353). -/
def removeFirstRel (id : Nat) : List IndexRelationship → List IndexRelationship
  | [] => []
  | p :: ps => if p.stream == id then ps else p :: removeFirstRel id ps

/-- The inner merge of one relationship into the process list (InnerJoin.cpp lines
343-365): if the target stream already appears, keep the cheaper of the two entries;
otherwise insert the new relationship at its sorted position. -/
def mergeRelationship (r : IndexRelationship) (pl : List IndexRelationship) :
    List IndexRelationship :=
  match pl.find? (fun p => p.stream == r.stream) with
  | none => insertSorted r pl
  | some old => if r.cheaperThan old then insertSorted r (removeFirstRel r.stream pl) else pl

/-- The process-list extension (InnerJoin.cpp lines 337-367): merge every outgoing
relationship of the current stream whose target is not yet used. -/
def addRelationships (streams : List StreamInfo) :
    List IndexRelationship → List IndexRelationship → List IndexRelationship
  | [], pl => pl
  | r :: rs, pl =>
    match getStreamInfo streams r.stream with
    | some info =>
      addRelationships streams rs (if info.used then pl else mergeRelationship r pl)
    | none => addRelationships streams rs pl

/-- The recursion choice (InnerJoin.cpp lines 369-377): the position (in the StreamInfo
store) of the target of the first process-list entry whose target is not yet used. -/
def nextProcessIdx (streams : List StreamInfo) : List IndexRelationship → Option Nat
  | [] => none
  | r :: rs =>
    match List.findIdx? (fun s => s.stream == r.stream) streams with
    | some j => if (streams.getD j default).used then nextProcessIdx streams rs else some j
    | none => nextProcessIdx streams rs

/-- The head of one `findBestOrder` activation before any recursion (InnerJoin.cpp lines
277-323): activate the stream, record it in its slot, compute the new cumulative cost and
cardinality (zero when a PLAN is enforced), save the partial order as best if it improves,
and mark the stream used.  Returns the updated state together with the pair
(new cost, new cardinality). -/
def searchStep (P : Params) (position idx : Nat) (cost cardinality : ℚ)
    (st : SearchState) : SearchState × ℚ × ℚ :=
  let info := st.innerStreams.getD idx default
  let active1 := activateStream info.stream st.active
  let newValues : ℚ × ℚ :=
    if P.plan then (0, 0)
    else
      let e := estimateCost P.oracle active1 info.stream (position == 0)
      (cost + cardinality * e.1, e.2 * cardinality)
  let st1 := { st with active := active1,
                       joinedStreams := setSlotNumber position info.stream st.joinedStreams }
  let st2 := updateBest (position + 1) newValues.1 st1
  (({ st2 with innerStreams := setUsedAt st2.innerStreams idx true } : SearchState),
   newValues)

/-- The choice of the non-PLAN recursion (InnerJoin.cpp lines 335-377): unless the search
is done or a PLAN is enforced, extend the process list with the current stream's
relationships and pick the first entry with a not-yet-used target; returns that target's
position together with the extended process list. -/
def descendTarget (P : Params) (st3 : SearchState) (info : StreamInfo)
    (processList : List IndexRelationship) (done : Bool) :
    Option (Nat × List IndexRelationship) :=
  if done = false ∧ P.plan = false then
    let pl1 := addRelationships st3.innerStreams info.indexedRelationships processList
    match nextProcessIdx st3.innerStreams pl1 with
    | some j => some (j, pl1)
    | none => none
  else none

/-- The choice of the PLAN recursion (InnerJoin.cpp lines 380-393): under PLAN, the
position of the first not-yet-used StreamInfo in declared order. -/
def planTarget (P : Params) (st : SearchState) : Option Nat :=
  if P.plan then List.findIdx? (fun s => !s.used) st.innerStreams else none

/-- The cleanup on exit of `findBestOrder` (InnerJoin.cpp lines 395-398): deactivate the
stream and restore the snapshot of `used` flags. -/
def cleanupState (streamId : Nat) (flags : List Bool) (st : SearchState) : SearchState :=
  { st with active := deactivateStream streamId st.active,
            innerStreams := restoreUsed st.innerStreams flags }

/-- `InnerJoin::findBestOrder` (InnerJoin.cpp lines 271-399), with explicit fuel.
Returns the updated state and the ghost trace of the cumulative costs of every full
ordering the search enumerates (one entry per visit with `position == remainingStreams`).
On fuel exhaustion the state is returned unchanged; fuel-insensitivity above the number
of not-yet-used streams is proved below. -/
def findBestOrder (P : Params) :
    Nat → Nat → Nat → List IndexRelationship → ℚ → ℚ → SearchState →
    SearchState × List ℚ
  | 0, _, _, _, _, _, st => (st, [])
  | fuel + 1, position, idx, processList, cost, cardinality, st =>
    let info := st.innerStreams.getD idx default
    let flags := st.innerStreams.map (·.used)
    let step := searchStep P position idx cost cardinality st
    let st3 := step.1
    let newCost := step.2.1
    let newCardinality := step.2.2
    let trace0 : List ℚ := if position + 1 = st3.remainingStreams then [newCost] else []
    let done := pruneFlag st3 (position + 1) newCost
    let r1 : SearchState × List ℚ :=
      match descendTarget P st3 info processList done with
      | some jp => findBestOrder P fuel (position + 1) jp.1 jp.2 newCost newCardinality st3
      | none => (st3, [])
    let r2 : SearchState × List ℚ :=
      match planTarget P r1.1 with
      | some j =>
        let rr := findBestOrder P fuel (position + 1) j processList newCost newCardinality r1.1
        (rr.1, r1.2 ++ rr.2)
      | none => r1
    (cleanupState info.stream flags r2.1, trace0 ++ r2.2)

/-- Accumulator of the first pass of `findJoinOrder`: the running `filters` and
`navigations` counters and the evolving state. -/
structure FirstPassAcc where
  filters : Nat
  navigations : Nat
  st : SearchState

/-- One iteration of the first pass of `findJoinOrder` (InnerJoin.cpp lines 185-211):
skip used streams, bump `remainingStreams`, update the `filters` and `navigations`
counters, and keep the cheapest independent stream as the length-one best order. -/
def firstPassStep (acc : FirstPassAcc) (info : StreamInfo) : FirstPassAcc :=
  if info.used then acc else
    let st0 := { acc.st with remainingStreams := acc.st.remainingStreams + 1 }
    let currentFilter : Nat := if info.isFiltered then 1 else 0
    let nav1 := if acc.navigations ≠ 0 ∧ currentFilter ≠ 0 then 0 else acc.navigations
    let filters1 := acc.filters + currentFilter
    let nav2 := if info.baseNavigated ∧ currentFilter = filters1 then nav1 + 1 else nav1
    let st1 :=
      if info.isIndependent ∧ (st0.bestCount = 0 ∨ info.baseCost < st0.bestCost) then
        { st0 with joinedStreams := setSlotBest 0 info.stream st0.joinedStreams,
                   bestCount := 1, bestCost := info.baseCost }
      else st0
    ⟨filters1, nav2, st1⟩

/-- The first pass of `findJoinOrder`: reset `bestCount` and `remainingStreams`
(InnerJoin.cpp lines 175-176) and walk the StreamInfo list once. -/
def firstPass (st : SearchState) : FirstPassAcc :=
  st.innerStreams.foldl firstPassStep
    ⟨0, 0, { st with bestCount := 0, remainingStreams := 0 }⟩

/-- Accumulator of the seed loop of `findJoinOrder`: the evolving state, the ghost list
of stream positions tried as seeds, the ghost full-ordering cost trace, and the
PLAN-break flag. -/
structure SeedLoopAcc where
  st : SearchState
  tried : List Nat
  fullCosts : List ℚ
  stopFlag : Bool

/-- One iteration of the seed loop of `findJoinOrder` (InnerJoin.cpp lines 217-244):
for a not-yet-used stream passing the first-rows filter, clear the process list and run
the search with this stream as seed; under PLAN, break after the first seed. -/
def seedLoopStep (P : Params) (filters navigations : Nat)
    (acc : SeedLoopAcc) (idx : Nat) : SeedLoopAcc :=
  if acc.stopFlag then acc else
  let info := acc.st.innerStreams.getD idx default
  if info.used then acc else
  let currentFilter : Nat := if info.isFiltered then 1 else 0
  if P.favorFirstRows = false ∨ navigations = 0 ∨
      (info.baseNavigated ∧ currentFilter = filters) then
    let r := findBestOrder P acc.st.innerStreams.length 0 idx [] 0 1 acc.st
    ⟨r.1, acc.tried ++ [idx], acc.fullCosts ++ r.2, P.plan⟩
  else acc

/-- The seed loop of `findJoinOrder`, iterating over the positions of the StreamInfo
store in order. -/
def seedLoop (P : Params) (filters navigations : Nat) (st : SearchState) : SeedLoopAcc :=
  (List.range st.innerStreams.length).foldl (seedLoopStep P filters navigations)
    ⟨st, [], [], false⟩

/-- Mark the first StreamInfo with the given stream number used
(`streamInfo->used = true` at InnerJoin.cpp line 251). -/
def markUsedById (id : Nat) : List StreamInfo → List StreamInfo
  | [] => []
  | s :: ss => if s.stream == id then { s with used := true } :: ss else s :: markUsedById id ss

/-- One iteration of the mark-as-used loop of `findJoinOrder` (InnerJoin.cpp lines
248-253): read slot `i`'s best stream, mark it used, append it to the output. -/
def markBestFold (acc : SearchState × List Nat) (i : Nat) : SearchState × List Nat :=
  let id := (acc.1.joinedStreams.getD i default).bestStream
  ({ acc.1 with innerStreams := markUsedById id acc.1.innerStreams }, acc.2 ++ [id])

/-- The outcome of `findJoinOrder`: the final state, the returned ordered stream list,
the ghost seed-trial list, the ghost full-ordering cost trace, and the return value. -/
structure JoinOrderResult where
  state : SearchState
  bestStreams : List Nat
  tried : List Nat
  fullCosts : List ℚ
  result : Bool
deriving DecidableEq

/-- `InnerJoin::findJoinOrder` (InnerJoin.cpp lines 172-261): first pass (seed
selection and counters), the seed search loop when no independent stream was found,
then mark the winning streams used and return them. -/
def findJoinOrder (P : Params) (st : SearchState) : JoinOrderResult :=
  let fp := firstPass st
  let acc : SeedLoopAcc :=
    if fp.st.bestCount = 0 then seedLoop P fp.filters fp.navigations fp.st
    else ⟨fp.st, [], [], false⟩
  let m := (List.range acc.st.bestCount).foldl markBestFold (acc.st, [])
  ⟨m.1, m.2, acc.tried, acc.fullCosts, !m.2.isEmpty⟩

/-! Specification-level derived notions used to state the claims. -/

/-- The number of not-yet-used streams in a StreamInfo store. -/
def unusedCount (streams : List StreamInfo) : Nat :=
  (streams.filter (fun s => !s.used)).length

/-- The stream numbers of the not-yet-used streams, in store order. -/
def unusedIds (streams : List StreamInfo) : List Nat :=
  (streams.filter (fun s => !s.used)).map (·.stream)

/-- The dependent streams recorded in the `indexedRelationships` of the StreamInfo with
the given stream number. -/
def relTargets (streams : List StreamInfo) (id : Nat) : List Nat :=
  match getStreamInfo streams id with
  | some info => info.indexedRelationships.map (·.stream)
  | none => []

/-- Position `k` of the order is a dependency-graph successor of some earlier position. -/
def connectedAt (streams : List StreamInfo) (order : List Nat) (k : Nat) : Prop :=
  ∃ j < k, order.getD k 0 ∈ relTargets streams (order.getD j 0)

/-- Every stream after the first is reachable from an earlier stream of the order through
the indexed relationships. -/
def connectedOrder (streams : List StreamInfo) (order : List Nat) : Prop :=
  ∀ k, k < order.length → 0 < k → connectedAt streams order k

/-- A full permutation of the not-yet-used streams that is reachable through the
dependency graph (spec §8, claim C1). -/
def reachableFullOrder (streams : List StreamInfo) (order : List Nat) : Prop :=
  order.Nodup ∧ order.length = unusedCount streams ∧
    (∀ id ∈ order, id ∈ unusedIds streams) ∧ connectedOrder streams order

instance (streams : List StreamInfo) (order : List Nat) (k : Nat) :
    Decidable (connectedAt streams order k) :=
  inferInstanceAs (Decidable (∃ j < k, order.getD k 0 ∈ relTargets streams (order.getD j 0)))

instance (streams : List StreamInfo) (order : List Nat) :
    Decidable (connectedOrder streams order) :=
  inferInstanceAs (Decidable (∀ k, k < order.length → 0 < k → connectedAt streams order k))

instance (streams : List StreamInfo) (order : List Nat) :
    Decidable (reachableFullOrder streams order) :=
  inferInstanceAs (Decidable (order.Nodup ∧ order.length = unusedCount streams ∧
    (∀ id ∈ order, id ∈ unusedIds streams) ∧ connectedOrder streams order))

/-- The cumulative estimated cost of driving the given streams in order, mirroring the
accumulation of `findBestOrder` (`new_cost = cost + cardinality * position_cost`,
`new_cardinality = position_cardinality * cardinality`), each stream probed under the
active set of its predecessors plus itself. -/
def orderCost (o : Oracle) (active : List Nat) (start : Bool) (cost cardinality : ℚ) :
    List Nat → ℚ
  | [] => cost
  | s :: rest =>
    let a := activateStream s active
    let e := estimateCost o a s start
    orderCost o a false (cost + cardinality * e.1) (e.2 * cardinality) rest

/-- Follows the wording of claim C5 (the running-counter reading): for each stream of the
store, whether it is `baseNavigated` and its `currentFilter` equals the value the
`filters` counter has right after that stream is visited in the first pass; used streams
are skipped (recorded as `false`). -/
def specRunningCompatible : Nat → List StreamInfo → List Bool
  | _, [] => []
  | filters, info :: rest =>
    if info.used then false :: specRunningCompatible filters rest
    else
      let currentFilter : Nat := if info.isFiltered then 1 else 0
      let filters1 := filters + currentFilter
      decide (info.baseNavigated ∧ currentFilter = filters1) ::
        specRunningCompatible filters1 rest

/-! Basic lemmas about the list primitives. -/

theorem restoreUsed_self (l : List StreamInfo) : restoreUsed l (l.map (·.used)) = l := by
  induction l with
  | nil => rfl
  | cons s ss ih => simp [restoreUsed, ih]

theorem restoreUsed_setUsedAt (l : List StreamInfo) (i : Nat) (b : Bool) :
    restoreUsed (setUsedAt l i b) (l.map (·.used)) = l := by
  induction l generalizing i with
  | nil => rfl
  | cons s ss ih =>
    cases i with
    | zero => simp [setUsedAt, restoreUsed, restoreUsed_self]
    | succ n => simp [setUsedAt, restoreUsed, ih]

theorem setUsedAt_length (l : List StreamInfo) (i : Nat) (b : Bool) :
    (setUsedAt l i b).length = l.length := by
  induction l generalizing i with
  | nil => rfl
  | cons s ss ih => cases i with
    | zero => rfl
    | succ n => simp [setUsedAt, ih]

theorem setUsedAt_map_stream (l : List StreamInfo) (i : Nat) (b : Bool) :
    (setUsedAt l i b).map (·.stream) = l.map (·.stream) := by
  induction l generalizing i with
  | nil => rfl
  | cons s ss ih => cases i with
    | zero => rfl
    | succ n => simp [setUsedAt, ih]

theorem setSlotNumber_length (i id : Nat) (js : List JoinedStream) :
    (setSlotNumber i id js).length = js.length := by
  induction js generalizing i with
  | nil => cases i <;> rfl
  | cons s ss ih => cases i with
    | zero => rfl
    | succ n => simp [setSlotNumber, ih]

theorem setSlotBest_length (i id : Nat) (js : List JoinedStream) :
    (setSlotBest i id js).length = js.length := by
  induction js generalizing i with
  | nil => cases i <;> rfl
  | cons s ss ih => cases i with
    | zero => rfl
    | succ n => simp [setSlotBest, ih]

theorem commitSlots_length (n : Nat) (js : List JoinedStream) :
    (commitSlots n js).length = js.length := by
  induction js generalizing n with
  | nil => cases n <;> rfl
  | cons s ss ih => cases n with
    | zero => rfl
    | succ m => simp [commitSlots, ih]

/-! Characterization of one search step. -/

theorem searchStep_innerStreams (P : Params) (pos idx : Nat) (c k : ℚ) (st : SearchState) :
    (searchStep P pos idx c k st).1.innerStreams = setUsedAt st.innerStreams idx true := by
  simp only [searchStep, updateBest]
  split <;> split <;> rfl

theorem searchStep_remaining (P : Params) (pos idx : Nat) (c k : ℚ) (st : SearchState) :
    (searchStep P pos idx c k st).1.remainingStreams = st.remainingStreams := by
  simp only [searchStep, updateBest]
  split <;> split <;> rfl

theorem searchStep_active (P : Params) (pos idx : Nat) (c k : ℚ) (st : SearchState) :
    (searchStep P pos idx c k st).1.active =
      activateStream (st.innerStreams.getD idx default).stream st.active := by
  simp only [searchStep, updateBest]
  split <;> split <;> rfl

theorem searchStep_joined_length (P : Params) (pos idx : Nat) (c k : ℚ) (st : SearchState) :
    (searchStep P pos idx c k st).1.joinedStreams.length = st.joinedStreams.length := by
  simp only [searchStep, updateBest]
  split <;> split <;> simp [commitSlots_length, setSlotNumber_length]

/-! One-level unfolding of `findBestOrder`, one lemma per combination of the two branch
choices. -/

theorem findBestOrder_unfold_nn (P : Params) (fuel pos idx : Nat)
    (pl : List IndexRelationship) (c k : ℚ) (st : SearchState)
    (h1 : descendTarget P (searchStep P pos idx c k st).1 (st.innerStreams.getD idx default)
      pl (pruneFlag (searchStep P pos idx c k st).1 (pos + 1)
        (searchStep P pos idx c k st).2.1) = none)
    (h2 : planTarget P (searchStep P pos idx c k st).1 = none) :
    findBestOrder P (fuel + 1) pos idx pl c k st =
      (cleanupState (st.innerStreams.getD idx default).stream (st.innerStreams.map (·.used))
        (searchStep P pos idx c k st).1,
       if pos + 1 = (searchStep P pos idx c k st).1.remainingStreams
       then [(searchStep P pos idx c k st).2.1] else []) := by
  simp only [findBestOrder, h1, h2, List.append_nil]

theorem findBestOrder_unfold_np (P : Params) (fuel pos idx : Nat)
    (pl : List IndexRelationship) (c k : ℚ) (st : SearchState) (j : Nat)
    (h1 : descendTarget P (searchStep P pos idx c k st).1 (st.innerStreams.getD idx default)
      pl (pruneFlag (searchStep P pos idx c k st).1 (pos + 1)
        (searchStep P pos idx c k st).2.1) = none)
    (h2 : planTarget P (searchStep P pos idx c k st).1 = some j) :
    findBestOrder P (fuel + 1) pos idx pl c k st =
      (cleanupState (st.innerStreams.getD idx default).stream (st.innerStreams.map (·.used))
        (findBestOrder P fuel (pos + 1) j pl (searchStep P pos idx c k st).2.1
          (searchStep P pos idx c k st).2.2 (searchStep P pos idx c k st).1).1,
       (if pos + 1 = (searchStep P pos idx c k st).1.remainingStreams
        then [(searchStep P pos idx c k st).2.1] else []) ++
         (findBestOrder P fuel (pos + 1) j pl (searchStep P pos idx c k st).2.1
           (searchStep P pos idx c k st).2.2 (searchStep P pos idx c k st).1).2) := by
  simp only [findBestOrder, h1, h2, List.nil_append]

theorem findBestOrder_unfold_dn (P : Params) (fuel pos idx : Nat)
    (pl : List IndexRelationship) (c k : ℚ) (st : SearchState)
    (jp : Nat × List IndexRelationship)
    (h1 : descendTarget P (searchStep P pos idx c k st).1 (st.innerStreams.getD idx default)
      pl (pruneFlag (searchStep P pos idx c k st).1 (pos + 1)
        (searchStep P pos idx c k st).2.1) = some jp)
    (h2 : planTarget P (findBestOrder P fuel (pos + 1) jp.1 jp.2
      (searchStep P pos idx c k st).2.1 (searchStep P pos idx c k st).2.2
      (searchStep P pos idx c k st).1).1 = none) :
    findBestOrder P (fuel + 1) pos idx pl c k st =
      (cleanupState (st.innerStreams.getD idx default).stream (st.innerStreams.map (·.used))
        (findBestOrder P fuel (pos + 1) jp.1 jp.2 (searchStep P pos idx c k st).2.1
          (searchStep P pos idx c k st).2.2 (searchStep P pos idx c k st).1).1,
       (if pos + 1 = (searchStep P pos idx c k st).1.remainingStreams
        then [(searchStep P pos idx c k st).2.1] else []) ++
         (findBestOrder P fuel (pos + 1) jp.1 jp.2 (searchStep P pos idx c k st).2.1
           (searchStep P pos idx c k st).2.2 (searchStep P pos idx c k st).1).2) := by
  simp only [findBestOrder, h1, h2]

theorem findBestOrder_unfold_dp (P : Params) (fuel pos idx : Nat)
    (pl : List IndexRelationship) (c k : ℚ) (st : SearchState)
    (jp : Nat × List IndexRelationship) (j : Nat)
    (h1 : descendTarget P (searchStep P pos idx c k st).1 (st.innerStreams.getD idx default)
      pl (pruneFlag (searchStep P pos idx c k st).1 (pos + 1)
        (searchStep P pos idx c k st).2.1) = some jp)
    (h2 : planTarget P (findBestOrder P fuel (pos + 1) jp.1 jp.2
      (searchStep P pos idx c k st).2.1 (searchStep P pos idx c k st).2.2
      (searchStep P pos idx c k st).1).1 = some j) :
    findBestOrder P (fuel + 1) pos idx pl c k st =
      (cleanupState (st.innerStreams.getD idx default).stream (st.innerStreams.map (·.used))
        (findBestOrder P fuel (pos + 1) j pl (searchStep P pos idx c k st).2.1
          (searchStep P pos idx c k st).2.2
          (findBestOrder P fuel (pos + 1) jp.1 jp.2 (searchStep P pos idx c k st).2.1
            (searchStep P pos idx c k st).2.2 (searchStep P pos idx c k st).1).1).1,
       (if pos + 1 = (searchStep P pos idx c k st).1.remainingStreams
        then [(searchStep P pos idx c k st).2.1] else []) ++
         ((findBestOrder P fuel (pos + 1) jp.1 jp.2 (searchStep P pos idx c k st).2.1
           (searchStep P pos idx c k st).2.2 (searchStep P pos idx c k st).1).2 ++
          (findBestOrder P fuel (pos + 1) j pl (searchStep P pos idx c k st).2.1
            (searchStep P pos idx c k st).2.2
            (findBestOrder P fuel (pos + 1) jp.1 jp.2 (searchStep P pos idx c k st).2.1
              (searchStep P pos idx c k st).2.2 (searchStep P pos idx c k st).1).1).2)) := by
  simp only [findBestOrder, h1, h2]

/-! The `used` flags (indeed the whole StreamInfo store), `remainingStreams` and the
slot-array length are restored resp. preserved by every `findBestOrder` call. -/

theorem findBestOrder_shape (P : Params) (fuel pos idx : Nat)
    (pl : List IndexRelationship) (c k : ℚ) (st : SearchState) :
    (findBestOrder P fuel pos idx pl c k st).1.innerStreams = st.innerStreams ∧
    (findBestOrder P fuel pos idx pl c k st).1.remainingStreams = st.remainingStreams ∧
    (findBestOrder P fuel pos idx pl c k st).1.joinedStreams.length =
      st.joinedStreams.length := by
  induction fuel generalizing pos idx pl c k st with
  | zero => exact ⟨rfl, rfl, rfl⟩
  | succ n ih =>
    simp only [findBestOrder]
    have h3 := searchStep_innerStreams P pos idx c k st
    have hrem := searchStep_remaining P pos idx c k st
    have hlen := searchStep_joined_length P pos idx c k st
    cases h1 : descendTarget P (searchStep P pos idx c k st).1
        (st.innerStreams.getD idx default) pl
        (pruneFlag (searchStep P pos idx c k st).1 (pos + 1)
          (searchStep P pos idx c k st).2.1) with
    | none =>
      cases h2 : planTarget P (searchStep P pos idx c k st).1 with
      | none =>
        refine ⟨?_, ?_, ?_⟩ <;> simp only [cleanupState, h3, hrem, hlen, restoreUsed_setUsedAt]
      | some j =>
        obtain ⟨ha, hb, hc⟩ := ih (pos + 1) j pl
          (searchStep P pos idx c k st).2.1 (searchStep P pos idx c k st).2.2
          (searchStep P pos idx c k st).1
        refine ⟨?_, ?_, ?_⟩ <;>
          simp only [cleanupState, ha, hb, hc, h3, hrem, hlen, restoreUsed_setUsedAt]
    | some jp =>
      obtain ⟨ha, hb, hc⟩ := ih (pos + 1) jp.1 jp.2
        (searchStep P pos idx c k st).2.1 (searchStep P pos idx c k st).2.2
        (searchStep P pos idx c k st).1
      cases h2 : planTarget P
          (findBestOrder P n (pos + 1) jp.1 jp.2 (searchStep P pos idx c k st).2.1
            (searchStep P pos idx c k st).2.2 (searchStep P pos idx c k st).1).1 with
      | none =>
        refine ⟨?_, ?_, ?_⟩ <;> simp only [cleanupState, ha, hb, hc, h3, hrem, hlen, restoreUsed_setUsedAt]
      | some j =>
        obtain ⟨ha2, hb2, hc2⟩ := ih (pos + 1) j pl
          (searchStep P pos idx c k st).2.1 (searchStep P pos idx c k st).2.2
          (findBestOrder P n (pos + 1) jp.1 jp.2 (searchStep P pos idx c k st).2.1
            (searchStep P pos idx c k st).2.2 (searchStep P pos idx c k st).1).1
        refine ⟨?_, ?_, ?_⟩ <;>
          simp only [cleanupState, ha2, hb2, hc2, ha, hb, hc, h3, hrem, hlen, restoreUsed_setUsedAt]

theorem findBestOrder_innerStreams (P : Params) (fuel pos idx : Nat)
    (pl : List IndexRelationship) (c k : ℚ) (st : SearchState) :
    (findBestOrder P fuel pos idx pl c k st).1.innerStreams = st.innerStreams :=
  (findBestOrder_shape P fuel pos idx pl c k st).1

theorem findBestOrder_remaining (P : Params) (fuel pos idx : Nat)
    (pl : List IndexRelationship) (c k : ℚ) (st : SearchState) :
    (findBestOrder P fuel pos idx pl c k st).1.remainingStreams = st.remainingStreams :=
  (findBestOrder_shape P fuel pos idx pl c k st).2.1

theorem findBestOrder_joined_length (P : Params) (fuel pos idx : Nat)
    (pl : List IndexRelationship) (c k : ℚ) (st : SearchState) :
    (findBestOrder P fuel pos idx pl c k st).1.joinedStreams.length =
      st.joinedStreams.length :=
  (findBestOrder_shape P fuel pos idx pl c k st).2.2

/-! Lemmas about unused streams, branch targets, and the active bits. -/

theorem getD_mem (l : List StreamInfo) (i : Nat) (hi : i < l.length) :
    l.getD i default ∈ l := by
  induction l generalizing i with
  | nil => cases hi
  | cons s ss ih =>
    cases i with
    | zero => exact List.mem_cons_self _ _
    | succ n => exact List.mem_cons_of_mem _ (ih n (by simpa using hi))

theorem unusedCount_pos (l : List StreamInfo) (i : Nat) (hi : i < l.length)
    (hu : (l.getD i default).used = false) : 0 < unusedCount l := by
  have hmem : l.getD i default ∈ l.filter (fun s => !s.used) :=
    List.mem_filter.mpr ⟨getD_mem l i hi, by simpa using hu⟩
  exact List.length_pos_of_mem hmem

theorem unusedCount_setUsedAt (l : List StreamInfo) (i : Nat) (hi : i < l.length)
    (hu : (l.getD i default).used = false) :
    unusedCount (setUsedAt l i true) + 1 = unusedCount l := by
  induction l generalizing i with
  | nil => cases hi
  | cons s ss ih =>
    cases i with
    | zero =>
      have hs : s.used = false := by simpa using hu
      simp [setUsedAt, unusedCount, List.filter_cons, hs]
    | succ n =>
      have hn : n < ss.length := by simpa using hi
      have hu2 : (ss.getD n default).used = false := by simpa [List.getD] using hu
      have := ih n hn hu2
      cases hsu : s.used <;>
        simp_all [setUsedAt, unusedCount, List.filter_cons]

theorem mem_setUsedAt_true (l : List StreamInfo) :
    ∀ (i : Nat) (s : StreamInfo), (l.map (·.stream)).Nodup → i < l.length →
      s ∈ setUsedAt l i true → s.used = false →
      s ∈ l ∧ s.stream ≠ (l.getD i default).stream := by
  induction l with
  | nil => intro i s _ hi _ _; cases hi
  | cons t ts ih =>
    intro i s hnd hi hs hsu
    have hnd2 : (ts.map (·.stream)).Nodup := (List.nodup_cons.mp hnd).2
    have hhd : t.stream ∉ ts.map (·.stream) := (List.nodup_cons.mp hnd).1
    cases i with
    | zero =>
      simp only [setUsedAt] at hs
      rcases List.mem_cons.mp hs with h | h
      · subst h; simp at hsu
      · refine ⟨List.mem_cons_of_mem _ h, ?_⟩
        intro hc
        apply hhd
        have hm : s.stream ∈ ts.map (·.stream) := List.mem_map_of_mem _ h
        have hg : ((t :: ts).getD 0 default) = t := rfl
        rw [hg] at hc
        rw [← hc]
        exact hm
    | succ n =>
      have hn : n < ts.length := by simpa using hi
      have hg : (t :: ts).getD (n + 1) default = ts.getD n default := by
        simp [List.getD_eq_getElem?_getD]
      simp only [setUsedAt] at hs
      rcases List.mem_cons.mp hs with h | h
      · subst h
        refine ⟨List.mem_cons_self _ _, ?_⟩
        intro hc
        rw [hg] at hc
        have hmem : ts.getD n default ∈ ts := getD_mem ts n hn
        have hm : (ts.getD n default).stream ∈ ts.map (·.stream) :=
          List.mem_map_of_mem _ hmem
        rw [← hc] at hm
        exact hhd hm
      · obtain ⟨hmem, hne⟩ := ih n s hnd2 hn h hsu
        refine ⟨List.mem_cons_of_mem _ hmem, ?_⟩
        rw [hg]
        exact hne

theorem nextProcessIdx_spec (streams : List StreamInfo) (pl : List IndexRelationship)
    (j : Nat) (h : nextProcessIdx streams pl = some j) :
    j < streams.length ∧ (streams.getD j default).used = false := by
  induction pl with
  | nil => simp [nextProcessIdx] at h
  | cons r rs ih =>
    simp only [nextProcessIdx] at h
    cases hf : List.findIdx? (fun s => s.stream == r.stream) streams with
    | none => rw [hf] at h; exact ih h
    | some j0 =>
      simp only [hf] at h
      by_cases hu : (streams.getD j0 default).used = true
      · rw [if_pos hu] at h; exact ih h
      · rw [if_neg hu] at h
        injection h with h; subst h
        obtain ⟨hlt, -, -⟩ := List.findIdx?_eq_some_iff_getElem.mp hf
        exact ⟨hlt, by simpa using hu⟩

theorem planTarget_spec (P : Params) (st : SearchState) (j : Nat)
    (h : planTarget P st = some j) :
    j < st.innerStreams.length ∧ (st.innerStreams.getD j default).used = false := by
  simp only [planTarget] at h
  split at h
  · obtain ⟨hlt, hp, -⟩ := List.findIdx?_eq_some_iff_getElem.mp h
    refine ⟨hlt, ?_⟩
    have : st.innerStreams.getD j default = st.innerStreams[j] := by
      simp [List.getD_eq_getElem?_getD, List.getElem?_eq_getElem hlt]
    rw [this]
    simpa using hp
  · cases h

theorem descendTarget_spec (P : Params) (st3 : SearchState) (info : StreamInfo)
    (pl : List IndexRelationship) (done : Bool) (jp : Nat × List IndexRelationship)
    (h : descendTarget P st3 info pl done = some jp) :
    jp.1 < st3.innerStreams.length ∧ (st3.innerStreams.getD jp.1 default).used = false := by
  simp only [descendTarget] at h
  split at h
  · cases hn : nextProcessIdx st3.innerStreams
        (addRelationships st3.innerStreams info.indexedRelationships pl) with
    | none => simp only [hn] at h; cases h
    | some j =>
      simp only [hn] at h
      cases h
      exact nextProcessIdx_spec _ _ _ hn
  · cases h

theorem activateStream_of_not_mem {s : Nat} {A : List Nat} (h : s ∉ A) :
    activateStream s A = s :: A := by
  simp [activateStream, h]

/-- The active bits of the compiler scratch are restored by every `findBestOrder` call,
provided (as holds on every call the driver or the search itself makes) the chosen stream
is not yet used and no not-yet-used stream is active on entry. -/
theorem findBestOrder_active (P : Params) (fuel : Nat) :
    ∀ (pos idx : Nat) (pl : List IndexRelationship) (c k : ℚ) (st : SearchState),
    (st.innerStreams.map (·.stream)).Nodup →
    (∀ s ∈ st.innerStreams, s.used = false → s.stream ∉ st.active) →
    idx < st.innerStreams.length →
    (st.innerStreams.getD idx default).used = false →
    (findBestOrder P fuel pos idx pl c k st).1.active = st.active := by
  induction fuel with
  | zero => intro _ _ _ _ _ _ _ _ _ _; rfl
  | succ n ih =>
    intro pos idx pl c k st hnd hact hidx hunused
    have hmem : st.innerStreams.getD idx default ∈ st.innerStreams :=
      getD_mem _ _ hidx
    have hacts : activateStream (st.innerStreams.getD idx default).stream st.active
        = (st.innerStreams.getD idx default).stream :: st.active :=
      activateStream_of_not_mem (hact _ hmem hunused)
    have h3i := searchStep_innerStreams P pos idx c k st
    have h3a := searchStep_active P pos idx c k st
    have hnd3 : ((searchStep P pos idx c k st).1.innerStreams.map (·.stream)).Nodup := by
      rw [h3i, setUsedAt_map_stream]; exact hnd
    have hact3 : ∀ s ∈ (searchStep P pos idx c k st).1.innerStreams, s.used = false →
        s.stream ∉ (searchStep P pos idx c k st).1.active := by
      intro s hsm hsu
      rw [h3i] at hsm
      obtain ⟨hmem2, hne⟩ := mem_setUsedAt_true _ _ _ hnd hidx hsm hsu
      rw [h3a, hacts]
      simp only [List.mem_cons, not_or]
      exact ⟨by simpa using hne, hact s hmem2 hsu⟩
    simp only [findBestOrder]
    cases h1 : descendTarget P (searchStep P pos idx c k st).1
        (st.innerStreams.getD idx default) pl
        (pruneFlag (searchStep P pos idx c k st).1 (pos + 1)
          (searchStep P pos idx c k st).2.1) with
    | none =>
      cases h2 : planTarget P (searchStep P pos idx c k st).1 with
      | none =>
        simp only [cleanupState, deactivateStream, h3a, hacts]
        exact List.erase_cons_head _ _
      | some j =>
        obtain ⟨hj, hju⟩ := planTarget_spec _ _ _ h2
        have hres := ih (pos + 1) j pl (searchStep P pos idx c k st).2.1
          (searchStep P pos idx c k st).2.2 (searchStep P pos idx c k st).1
          hnd3 hact3 hj hju
        simp only [cleanupState, hres, deactivateStream, h3a, hacts]
        exact List.erase_cons_head _ _
    | some jp =>
      obtain ⟨hj, hju⟩ := descendTarget_spec _ _ _ _ _ _ h1
      have hr1a := ih (pos + 1) jp.1 jp.2 (searchStep P pos idx c k st).2.1
        (searchStep P pos idx c k st).2.2 (searchStep P pos idx c k st).1
        hnd3 hact3 hj hju
      have hr1i := findBestOrder_innerStreams P n (pos + 1) jp.1 jp.2
        (searchStep P pos idx c k st).2.1 (searchStep P pos idx c k st).2.2
        (searchStep P pos idx c k st).1
      cases h2 : planTarget P
          (findBestOrder P n (pos + 1) jp.1 jp.2 (searchStep P pos idx c k st).2.1
            (searchStep P pos idx c k st).2.2 (searchStep P pos idx c k st).1).1 with
      | none =>
        simp only [cleanupState, hr1a, deactivateStream, h3a, hacts]
        exact List.erase_cons_head _ _
      | some j =>
        obtain ⟨hj2, hju2⟩ := planTarget_spec _ _ _ h2
        have hres := ih (pos + 1) j pl (searchStep P pos idx c k st).2.1
          (searchStep P pos idx c k st).2.2 _
          (by rw [hr1i]; exact hnd3)
          (by rw [hr1i, hr1a]; exact hact3) hj2 hju2
        simp only [cleanupState, hres, hr1a, deactivateStream, h3a, hacts]
        exact List.erase_cons_head _ _

/-! Fuel insensitivity: with fuel at least the number of not-yet-used streams, the
embedded search is independent of the fuel, which is the termination argument of the
source recursion (each level marks its stream used and descends only into unused ones). -/

theorem findBestOrder_fuel_succ (P : Params) :
    ∀ (fuel pos idx : Nat) (pl : List IndexRelationship) (c k : ℚ) (st : SearchState),
    idx < st.innerStreams.length →
    (st.innerStreams.getD idx default).used = false →
    unusedCount st.innerStreams ≤ fuel →
    findBestOrder P (fuel + 1) pos idx pl c k st =
      findBestOrder P fuel pos idx pl c k st := by
  intro fuel
  induction fuel with
  | zero =>
    intro pos idx pl c k st hidx hunused hfuel
    exact absurd (unusedCount_pos _ _ hidx hunused) (by omega)
  | succ n ih =>
    intro pos idx pl c k st hidx hunused hfuel
    have hcount := unusedCount_setUsedAt st.innerStreams idx hidx hunused
    have h3i := searchStep_innerStreams P pos idx c k st
    have hc3 : unusedCount (searchStep P pos idx c k st).1.innerStreams ≤ n := by
      rw [h3i]; omega
    cases h1 : descendTarget P (searchStep P pos idx c k st).1
        (st.innerStreams.getD idx default) pl
        (pruneFlag (searchStep P pos idx c k st).1 (pos + 1)
          (searchStep P pos idx c k st).2.1) with
    | none =>
      cases h2 : planTarget P (searchStep P pos idx c k st).1 with
      | none =>
        rw [findBestOrder_unfold_nn P (n + 1) pos idx pl c k st h1 h2,
            findBestOrder_unfold_nn P n pos idx pl c k st h1 h2]
      | some j =>
        obtain ⟨hj, hju⟩ := planTarget_spec _ _ _ h2
        rw [findBestOrder_unfold_np P (n + 1) pos idx pl c k st j h1 h2,
            findBestOrder_unfold_np P n pos idx pl c k st j h1 h2,
            ih (pos + 1) j pl _ _ _ hj hju hc3]
    | some jp =>
      obtain ⟨hj, hju⟩ := descendTarget_spec _ _ _ _ _ _ h1
      have hchild := ih (pos + 1) jp.1 jp.2 (searchStep P pos idx c k st).2.1
        (searchStep P pos idx c k st).2.2 (searchStep P pos idx c k st).1 hj hju hc3
      have hr1i := findBestOrder_innerStreams P n (pos + 1) jp.1 jp.2
        (searchStep P pos idx c k st).2.1 (searchStep P pos idx c k st).2.2
        (searchStep P pos idx c k st).1
      cases h2 : planTarget P
          (findBestOrder P n (pos + 1) jp.1 jp.2 (searchStep P pos idx c k st).2.1
            (searchStep P pos idx c k st).2.2 (searchStep P pos idx c k st).1).1 with
      | none =>
        rw [findBestOrder_unfold_dn P (n + 1) pos idx pl c k st jp h1 (by rw [hchild]; exact h2),
            findBestOrder_unfold_dn P n pos idx pl c k st jp h1 h2, hchild]
      | some j =>
        obtain ⟨hj2, hju2⟩ := planTarget_spec _ _ _ h2
        rw [findBestOrder_unfold_dp P (n + 1) pos idx pl c k st jp j h1 (by rw [hchild]; exact h2),
            findBestOrder_unfold_dp P n pos idx pl c k st jp j h1 h2, hchild,
            ih (pos + 1) j pl _ _ _ hj2 hju2 (by rw [hr1i]; exact hc3)]

theorem findBestOrder_fuel_ge (P : Params) (pos idx : Nat)
    (pl : List IndexRelationship) (c k : ℚ) (st : SearchState)
    (hidx : idx < st.innerStreams.length)
    (hunused : (st.innerStreams.getD idx default).used = false) :
    ∀ fuel, unusedCount st.innerStreams ≤ fuel →
    findBestOrder P fuel pos idx pl c k st =
      findBestOrder P (unusedCount st.innerStreams) pos idx pl c k st := by
  intro fuel
  induction fuel with
  | zero =>
    intro h
    exact absurd (unusedCount_pos _ _ hidx hunused) (by omega)
  | succ f ih =>
    intro h
    by_cases he : unusedCount st.innerStreams = f + 1
    · rw [he]
    · have hle : unusedCount st.innerStreams ≤ f := by omega
      rw [findBestOrder_fuel_succ P f pos idx pl c k st hidx hunused hle]
      exact ih hle

/-! Path and best-order views of the slot array, and their behaviour under the slot
operations. -/

/-- The stream numbers recorded on the slots before `pos` (the path under exploration). -/
def pathOf (st : SearchState) (pos : Nat) : List Nat :=
  (st.joinedStreams.map (·.number)).take pos

/-- The best order recorded in the slots (`bestStream` of the slots before `bestCount`). -/
def bestSlotsOf (st : SearchState) : List Nat :=
  (st.joinedStreams.map (·.bestStream)).take st.bestCount

/-- The stream numbers of a StreamInfo store, in order. -/
def idsOf (streams : List StreamInfo) : List Nat := streams.map (·.stream)

/-- The stream numbers of the used StreamInfos, in order. -/
def usedIdsOf (streams : List StreamInfo) : List Nat :=
  (streams.filter (·.used)).map (·.stream)

theorem map_number_setSlotNumber_take (js : List JoinedStream) :
    ∀ (p q id : Nat), q ≤ p →
    (((setSlotNumber p id js).map (·.number)).take q) = ((js.map (·.number)).take q) := by
  induction js with
  | nil => intro p q id _; cases p <;> rfl
  | cons s ss ih =>
    intro p q id hq
    cases p with
    | zero =>
      have : q = 0 := Nat.le_zero.mp hq
      subst this; rfl
    | succ n =>
      cases q with
      | zero => rfl
      | succ m =>
        simp only [setSlotNumber, List.map_cons, List.take_succ_cons]
        rw [ih n m id (Nat.le_of_succ_le_succ hq)]

theorem map_number_setSlotNumber_take_succ (js : List JoinedStream) :
    ∀ (p id : Nat), p < js.length →
    (((setSlotNumber p id js).map (·.number)).take (p + 1))
      = ((js.map (·.number)).take p) ++ [id] := by
  induction js with
  | nil => intro p id h; cases h
  | cons s ss ih =>
    intro p id hp
    cases p with
    | zero => rfl
    | succ n =>
      simp only [setSlotNumber, List.map_cons, List.take_succ_cons, List.cons_append]
      rw [ih n id (by simpa using hp)]

theorem map_best_setSlotNumber (js : List JoinedStream) :
    ∀ (p id : Nat), (setSlotNumber p id js).map (·.bestStream) = js.map (·.bestStream) := by
  induction js with
  | nil => intro p id; cases p <;> rfl
  | cons s ss ih =>
    intro p id
    cases p with
    | zero => rfl
    | succ n => simp only [setSlotNumber, List.map_cons]; rw [ih n id]

theorem map_number_commitSlots (js : List JoinedStream) :
    ∀ (n : Nat), (commitSlots n js).map (·.number) = js.map (·.number) := by
  induction js with
  | nil => intro n; cases n <;> rfl
  | cons s ss ih =>
    intro n
    cases n with
    | zero => rfl
    | succ m => simp only [commitSlots, List.map_cons]; rw [ih m]

theorem map_best_commitSlots_take (js : List JoinedStream) :
    ∀ (n : Nat), n ≤ js.length →
    (((commitSlots n js).map (·.bestStream)).take n) = ((js.map (·.number)).take n) := by
  induction js with
  | nil => intro n hn; cases n with
    | zero => rfl
    | succ m => cases hn
  | cons s ss ih =>
    intro n hn
    cases n with
    | zero => rfl
    | succ m =>
      simp only [commitSlots, List.map_cons, List.take_succ_cons]
      rw [ih m (by simpa using hn)]

theorem usedIds_subset_ids (l : List StreamInfo) (id : Nat) (h : id ∈ usedIdsOf l) :
    id ∈ idsOf l := by
  simp only [usedIdsOf, List.mem_map, List.mem_filter] at h
  obtain ⟨s, ⟨hs, _⟩, rfl⟩ := h
  exact List.mem_map_of_mem _ hs

theorem getD_cons_succ_eq (s : StreamInfo) (ss : List StreamInfo) (n : Nat) :
    (s :: ss).getD (n + 1) default = ss.getD n default := rfl

theorem mem_usedIds_iff (l : List StreamInfo) (id : Nat) :
    id ∈ usedIdsOf l ↔ ∃ s, s ∈ l ∧ s.used = true ∧ s.stream = id := by
  simp only [usedIdsOf, List.mem_map, List.mem_filter]
  constructor
  · rintro ⟨s, ⟨hs, hu⟩, rfl⟩; exact ⟨s, hs, hu, rfl⟩
  · rintro ⟨s, hs, hu, rfl⟩; exact ⟨s, ⟨hs, hu⟩, rfl⟩

theorem mem_setUsedAt_of_used (l : List StreamInfo) :
    ∀ (idx : Nat) (s : StreamInfo), s ∈ l → s.used = true → s ∈ setUsedAt l idx true := by
  induction l with
  | nil => intro idx s h; cases h
  | cons t ts ih =>
    intro idx s hs hu
    cases idx with
    | zero =>
      rcases List.mem_cons.mp hs with rfl | h
      · have : ({ s with used := true } : StreamInfo) = s := by
          cases s; simp_all
        rw [setUsedAt, this]
        exact List.mem_cons_self _ _
      · exact List.mem_cons_of_mem _ h
    | succ n =>
      rcases List.mem_cons.mp hs with rfl | h
      · exact List.mem_cons_self _ _
      · exact List.mem_cons_of_mem _ (ih n s h hu)

theorem setUsedAt_self_mem (l : List StreamInfo) :
    ∀ (idx : Nat), idx < l.length →
    ({ l.getD idx default with used := true } : StreamInfo) ∈ setUsedAt l idx true := by
  induction l with
  | nil => intro idx h; cases h
  | cons s ss ih =>
    intro idx hidx
    cases idx with
    | zero => exact List.mem_cons_self _ _
    | succ n =>
      rw [getD_cons_succ_eq]
      exact List.mem_cons_of_mem _ (ih n (by simpa using hidx))

theorem usedIds_setUsedAt_true (l : List StreamInfo) (idx : Nat) (id : Nat)
    (h : id ∈ usedIdsOf l) : id ∈ usedIdsOf (setUsedAt l idx true) := by
  obtain ⟨s, hs, hu, rfl⟩ := (mem_usedIds_iff l id).mp h
  exact (mem_usedIds_iff _ _).mpr ⟨s, mem_setUsedAt_of_used l idx s hs hu, hu, rfl⟩

theorem getD_stream_mem_usedIds_setUsedAt (l : List StreamInfo) (idx : Nat)
    (hidx : idx < l.length) :
    (l.getD idx default).stream ∈ usedIdsOf (setUsedAt l idx true) :=
  (mem_usedIds_iff _ _).mpr
    ⟨{ l.getD idx default with used := true }, setUsedAt_self_mem l idx hidx, rfl, rfl⟩

theorem eq_of_mem_nodup_ids (l : List StreamInfo) (hnd : (idsOf l).Nodup) :
    ∀ s t, s ∈ l → t ∈ l → s.stream = t.stream → s = t := by
  induction l with
  | nil => intro s t hs; cases hs
  | cons a as ih =>
    intro s t hs ht hst
    have hnd2 : (idsOf as).Nodup := (List.nodup_cons.mp hnd).2
    have hhd : a.stream ∉ as.map (·.stream) := (List.nodup_cons.mp hnd).1
    rcases List.mem_cons.mp hs with rfl | hs2
    · rcases List.mem_cons.mp ht with rfl | ht2
      · rfl
      · exact absurd (hst ▸ List.mem_map_of_mem (·.stream) ht2) hhd
    · rcases List.mem_cons.mp ht with rfl | ht2
      · exact absurd (hst ▸ List.mem_map_of_mem (·.stream) hs2) hhd
      · exact ih hnd2 s t hs2 ht2 hst

theorem unused_id_not_in_usedIds (l : List StreamInfo) (idx : Nat)
    (hnd : (idsOf l).Nodup) (hidx : idx < l.length)
    (hun : (l.getD idx default).used = false) :
    (l.getD idx default).stream ∉ usedIdsOf l := by
  intro hmem
  simp only [usedIdsOf, List.mem_map, List.mem_filter] at hmem
  obtain ⟨s, ⟨hs, hsu⟩, hss⟩ := hmem
  have := eq_of_mem_nodup_ids l hnd s (l.getD idx default) hs (getD_mem l idx hidx) hss
  rw [this] at hsu
  rw [hun] at hsu
  cases hsu

/-! Decomposition of one search step into explicit record updates. -/

theorem updateBest_commit (position1 : Nat) (nc : ℚ) (st : SearchState)
    (h : st.bestCount < position1 ∨ (position1 = st.bestCount ∧ nc < st.bestCost)) :
    updateBest position1 nc st =
      { st with bestCount := position1, bestCost := nc,
                joinedStreams := commitSlots position1 st.joinedStreams } := by
  rw [updateBest, if_pos h]

theorem updateBest_skip (position1 : Nat) (nc : ℚ) (st : SearchState)
    (h : ¬(st.bestCount < position1 ∨ (position1 = st.bestCount ∧ nc < st.bestCost))) :
    updateBest position1 nc st = st := by
  rw [updateBest, if_neg h]

theorem searchStep_fst (P : Params) (pos idx : Nat) (c k : ℚ) (st : SearchState) :
    (searchStep P pos idx c k st).1 =
      { updateBest (pos + 1) (searchStep P pos idx c k st).2.1
          { st with
            active := activateStream (st.innerStreams.getD idx default).stream st.active,
            joinedStreams :=
              setSlotNumber pos (st.innerStreams.getD idx default).stream st.joinedStreams }
        with innerStreams := setUsedAt st.innerStreams idx true } := by
  simp only [searchStep, updateBest]
  split <;> split <;> rfl

theorem cleanup_joined (a : Nat) (b : List Bool) (s : SearchState) :
    (cleanupState a b s).joinedStreams = s.joinedStreams := rfl

theorem cleanup_bestCount (a : Nat) (b : List Bool) (s : SearchState) :
    (cleanupState a b s).bestCount = s.bestCount := rfl

theorem cleanup_bestCost (a : Nat) (b : List Bool) (s : SearchState) :
    (cleanupState a b s).bestCost = s.bestCost := rfl

theorem pathOf_cleanup (a : Nat) (b : List Bool) (s : SearchState) (q : Nat) :
    pathOf (cleanupState a b s) q = pathOf s q := rfl

theorem bestSlotsOf_cleanup (a : Nat) (b : List Bool) (s : SearchState) :
    bestSlotsOf (cleanupState a b s) = bestSlotsOf s := rfl

theorem searchStep_best (P : Params) (pos idx : Nat) (c k : ℚ) (st : SearchState)
    (hpos : pos < st.joinedStreams.length) :
    ((searchStep P pos idx c k st).1.bestCount = pos + 1 ∧
     (searchStep P pos idx c k st).1.bestCost = (searchStep P pos idx c k st).2.1 ∧
     bestSlotsOf (searchStep P pos idx c k st).1
       = pathOf st pos ++ [(st.innerStreams.getD idx default).stream] ∧
     (st.bestCount < pos + 1 ∨
       (pos + 1 = st.bestCount ∧ (searchStep P pos idx c k st).2.1 < st.bestCost))) ∨
    ((searchStep P pos idx c k st).1.bestCount = st.bestCount ∧
     (searchStep P pos idx c k st).1.bestCost = st.bestCost ∧
     bestSlotsOf (searchStep P pos idx c k st).1 = bestSlotsOf st ∧
     ¬(st.bestCount < pos + 1 ∨
       (pos + 1 = st.bestCount ∧ (searchStep P pos idx c k st).2.1 < st.bestCost))) := by
  have hlen : pos + 1 ≤ (setSlotNumber pos (st.innerStreams.getD idx default).stream
      st.joinedStreams).length := by
    rw [setSlotNumber_length]; omega
  by_cases h : st.bestCount < pos + 1 ∨
      (pos + 1 = st.bestCount ∧ (searchStep P pos idx c k st).2.1 < st.bestCost)
  · left
    rw [searchStep_fst P pos idx c k st, updateBest_commit _ _ _ (by exact h)]
    refine ⟨rfl, rfl, ?_, h⟩
    show ((commitSlots (pos + 1) (setSlotNumber pos (st.innerStreams.getD idx default).stream
        st.joinedStreams)).map (·.bestStream)).take (pos + 1) = _
    rw [map_best_commitSlots_take _ _ hlen,
        map_number_setSlotNumber_take_succ _ _ _ hpos]
    rfl
  · right
    rw [searchStep_fst P pos idx c k st, updateBest_skip _ _ _ (by exact h)]
    refine ⟨rfl, rfl, ?_, h⟩
    show ((setSlotNumber pos (st.innerStreams.getD idx default).stream
        st.joinedStreams).map (·.bestStream)).take st.bestCount = _
    rw [map_best_setSlotNumber]
    rfl

theorem searchStep_path (P : Params) (pos idx : Nat) (c k : ℚ) (st : SearchState)
    (hpos : pos < st.joinedStreams.length) :
    pathOf (searchStep P pos idx c k st).1 (pos + 1)
      = pathOf st pos ++ [(st.innerStreams.getD idx default).stream] := by
  rw [searchStep_fst]
  by_cases h : ({ st with
      active := activateStream (st.innerStreams.getD idx default).stream st.active,
      joinedStreams := setSlotNumber pos (st.innerStreams.getD idx default).stream
        st.joinedStreams } : SearchState).bestCount < pos + 1 ∨
      (pos + 1 = ({ st with
        active := activateStream (st.innerStreams.getD idx default).stream st.active,
        joinedStreams := setSlotNumber pos (st.innerStreams.getD idx default).stream
          st.joinedStreams } : SearchState).bestCount ∧
       (searchStep P pos idx c k st).2.1 < ({ st with
        active := activateStream (st.innerStreams.getD idx default).stream st.active,
        joinedStreams := setSlotNumber pos (st.innerStreams.getD idx default).stream
          st.joinedStreams } : SearchState).bestCost)
  · rw [updateBest_commit _ _ _ h]
    show ((commitSlots (pos + 1) (setSlotNumber pos (st.innerStreams.getD idx default).stream
        st.joinedStreams)).map (·.number)).take (pos + 1) = _
    rw [map_number_commitSlots, map_number_setSlotNumber_take_succ _ _ _ hpos]
    rfl
  · rw [updateBest_skip _ _ _ h]
    show ((setSlotNumber pos (st.innerStreams.getD idx default).stream
        st.joinedStreams).map (·.number)).take (pos + 1) = _
    rw [map_number_setSlotNumber_take_succ _ _ _ hpos]
    rfl

theorem searchStep_path_prefix (P : Params) (pos idx : Nat) (c k : ℚ) (st : SearchState)
    (q : Nat) (hq : q ≤ pos) :
    pathOf (searchStep P pos idx c k st).1 q = pathOf st q := by
  rw [searchStep_fst]
  by_cases h : ({ st with
      active := activateStream (st.innerStreams.getD idx default).stream st.active,
      joinedStreams := setSlotNumber pos (st.innerStreams.getD idx default).stream
        st.joinedStreams } : SearchState).bestCount < pos + 1 ∨
      (pos + 1 = ({ st with
        active := activateStream (st.innerStreams.getD idx default).stream st.active,
        joinedStreams := setSlotNumber pos (st.innerStreams.getD idx default).stream
          st.joinedStreams } : SearchState).bestCount ∧
       (searchStep P pos idx c k st).2.1 < ({ st with
        active := activateStream (st.innerStreams.getD idx default).stream st.active,
        joinedStreams := setSlotNumber pos (st.innerStreams.getD idx default).stream
          st.joinedStreams } : SearchState).bestCost)
  · rw [updateBest_commit _ _ _ h]
    show ((commitSlots (pos + 1) (setSlotNumber pos (st.innerStreams.getD idx default).stream
        st.joinedStreams)).map (·.number)).take q = _
    rw [map_number_commitSlots, map_number_setSlotNumber_take _ _ _ _ hq]
    rfl
  · rw [updateBest_skip _ _ _ h]
    show ((setSlotNumber pos (st.innerStreams.getD idx default).stream
        st.joinedStreams).map (·.number)).take q = _
    rw [map_number_setSlotNumber_take _ _ _ _ hq]
    rfl

theorem findBestOrder_path_prefix (P : Params) (fuel : Nat) :
    ∀ (pos idx : Nat) (pl : List IndexRelationship) (c k : ℚ) (st : SearchState) (q : Nat),
    q ≤ pos →
    pathOf (findBestOrder P fuel pos idx pl c k st).1 q = pathOf st q := by
  induction fuel with
  | zero => intro pos idx pl c k st q hq; rfl
  | succ n ih =>
    intro pos idx pl c k st q hq
    have hstep := searchStep_path_prefix P pos idx c k st q hq
    cases h1 : descendTarget P (searchStep P pos idx c k st).1
        (st.innerStreams.getD idx default) pl
        (pruneFlag (searchStep P pos idx c k st).1 (pos + 1)
          (searchStep P pos idx c k st).2.1) with
    | none =>
      cases h2 : planTarget P (searchStep P pos idx c k st).1 with
      | none =>
        rw [findBestOrder_unfold_nn P n pos idx pl c k st h1 h2, pathOf_cleanup, hstep]
      | some j =>
        rw [findBestOrder_unfold_np P n pos idx pl c k st j h1 h2, pathOf_cleanup,
            ih (pos + 1) j pl _ _ _ q (by omega), hstep]
    | some jp =>
      cases h2 : planTarget P
          (findBestOrder P n (pos + 1) jp.1 jp.2 (searchStep P pos idx c k st).2.1
            (searchStep P pos idx c k st).2.2 (searchStep P pos idx c k st).1).1 with
      | none =>
        rw [findBestOrder_unfold_dn P n pos idx pl c k st jp h1 h2, pathOf_cleanup,
            ih (pos + 1) jp.1 jp.2 _ _ _ q (by omega), hstep]
      | some j =>
        rw [findBestOrder_unfold_dp P n pos idx pl c k st jp j h1 h2, pathOf_cleanup,
            ih (pos + 1) j pl _ _ _ q (by omega),
            ih (pos + 1) jp.1 jp.2 _ _ _ q (by omega), hstep]

/-! The structural search invariant: distinctness and bounds of the recorded best order,
monotonicity of `bestCount`, decrease of `bestCost` once a full ordering is known, and
the relation between the ghost full-visit trace and the final best cost. -/

/-- Invariants of the path slots at a search level: the recorded prefix is duplicate-free
and consists of identifiers of used streams. -/
structure PathOK (st : SearchState) (pos : Nat) : Prop where
  nodup : (pathOf st pos).Nodup
  mem_used : ∀ id ∈ pathOf st pos, id ∈ usedIdsOf st.innerStreams

/-- Invariants of the recorded best order: duplicate-free, no longer than
`remainingStreams`, and made of identifiers of actual streams. -/
structure BestOK (st : SearchState) : Prop where
  nodup : (bestSlotsOf st).Nodup
  le_remaining : st.bestCount ≤ st.remainingStreams
  mem_ids : ∀ id ∈ bestSlotsOf st, id ∈ idsOf st.innerStreams

theorem idsOf_restoreUsed (l : List StreamInfo) :
    ∀ bs, idsOf (restoreUsed l bs) = idsOf l := by
  induction l with
  | nil => intro bs; rfl
  | cons s ss ih =>
    intro bs
    cases bs with
    | nil => rfl
    | cons b bs => simp only [restoreUsed, idsOf, List.map_cons]; rw [← idsOf, ih bs]; rfl

theorem append_ne_nil_cases {α : Type} {l1 l2 : List α} (h : l1 ++ l2 ≠ []) :
    l1 ≠ [] ∨ l2 ≠ [] := by
  by_cases h1 : l1 = []
  · right
    intro h2
    rw [h1, h2] at h
    exact h rfl
  · left
    exact h1

theorem BestOK_cleanup (sid : Nat) (flags : List Bool) (Y : SearchState)
    (h : BestOK Y) : BestOK (cleanupState sid flags Y) := by
  constructor
  · exact h.nodup
  · exact h.le_remaining
  · intro id hin
    show id ∈ idsOf (restoreUsed Y.innerStreams flags)
    rw [idsOf_restoreUsed]
    exact h.mem_ids _ hin

theorem findBestOrder_master_assemble (P : Params) (n : Nat)
    (ih : ∀ (pos idx : Nat) (pl : List IndexRelationship) (c k : ℚ) (st : SearchState),
      (idsOf st.innerStreams).Nodup →
      idx < st.innerStreams.length →
      (st.innerStreams.getD idx default).used = false →
      pos + unusedCount st.innerStreams = st.remainingStreams →
      st.remainingStreams ≤ st.joinedStreams.length →
      PathOK st pos → BestOK st →
      BestOK (findBestOrder P n pos idx pl c k st).1 ∧
      st.bestCount ≤ (findBestOrder P n pos idx pl c k st).1.bestCount ∧
      (st.bestCount = st.remainingStreams →
        (findBestOrder P n pos idx pl c k st).1.bestCount = st.remainingStreams ∧
        (findBestOrder P n pos idx pl c k st).1.bestCost ≤ st.bestCost) ∧
      (∀ cc ∈ (findBestOrder P n pos idx pl c k st).2,
        (findBestOrder P n pos idx pl c k st).1.bestCost ≤ cc) ∧
      ((findBestOrder P n pos idx pl c k st).2 ≠ [] →
        (findBestOrder P n pos idx pl c k st).1.bestCount = st.remainingStreams))
    (pos idx : Nat) (pl : List IndexRelationship) (c k : ℚ) (st : SearchState)
    (hnd : (idsOf st.innerStreams).Nodup)
    (hidx : idx < st.innerStreams.length)
    (hunused : (st.innerStreams.getD idx default).used = false)
    (hpos : pos + unusedCount st.innerStreams = st.remainingStreams)
    (hrem : st.remainingStreams ≤ st.joinedStreams.length)
    (hbest : BestOK st)
    (hnd3 : (idsOf (searchStep P pos idx c k st).1.innerStreams).Nodup)
    (hcount3 : (pos + 1) + unusedCount (searchStep P pos idx c k st).1.innerStreams
      = (searchStep P pos idx c k st).1.remainingStreams)
    (hrem3 : (searchStep P pos idx c k st).1.remainingStreams
      ≤ (searchStep P pos idx c k st).1.joinedStreams.length)
    (hpath3 : PathOK (searchStep P pos idx c k st).1 (pos + 1))
    (hbest3 : BestOK (searchStep P pos idx c k st).1)
    (hm1 : st.bestCount ≤ (searchStep P pos idx c k st).1.bestCount)
    (hm3 : st.bestCount = st.remainingStreams →
      (searchStep P pos idx c k st).1.bestCount = st.remainingStreams ∧
      (searchStep P pos idx c k st).1.bestCost ≤ st.bestCost)
    (htr : pos + 1 = st.remainingStreams →
      (searchStep P pos idx c k st).1.bestCount = st.remainingStreams ∧
      (searchStep P pos idx c k st).1.bestCost ≤ (searchStep P pos idx c k st).2.1)
    (h3i : (searchStep P pos idx c k st).1.innerStreams = setUsedAt st.innerStreams idx true)
    (h3r : (searchStep P pos idx c k st).1.remainingStreams = st.remainingStreams) :
    BestOK (findBestOrder P (n + 1) pos idx pl c k st).1 ∧
    st.bestCount ≤ (findBestOrder P (n + 1) pos idx pl c k st).1.bestCount ∧
    (st.bestCount = st.remainingStreams →
      (findBestOrder P (n + 1) pos idx pl c k st).1.bestCount = st.remainingStreams ∧
      (findBestOrder P (n + 1) pos idx pl c k st).1.bestCost ≤ st.bestCost) ∧
    (∀ cc ∈ (findBestOrder P (n + 1) pos idx pl c k st).2,
      (findBestOrder P (n + 1) pos idx pl c k st).1.bestCost ≤ cc) ∧
    ((findBestOrder P (n + 1) pos idx pl c k st).2 ≠ [] →
      (findBestOrder P (n + 1) pos idx pl c k st).1.bestCount = st.remainingStreams) := by
  cases h1 : descendTarget P (searchStep P pos idx c k st).1
      (st.innerStreams.getD idx default) pl
      (pruneFlag (searchStep P pos idx c k st).1 (pos + 1)
        (searchStep P pos idx c k st).2.1) with
  | none =>
    cases h2 : planTarget P (searchStep P pos idx c k st).1 with
    | none =>
      rw [findBestOrder_unfold_nn P n pos idx pl c k st h1 h2]
      refine ⟨BestOK_cleanup _ _ _ hbest3, hm1, ?_, ?_, ?_⟩
      · intro h
        exact ⟨(hm3 h).1, (hm3 h).2⟩
      · intro cc hcc
        simp only [h3r] at hcc
        by_cases hfull : pos + 1 = st.remainingStreams
        · rw [if_pos hfull] at hcc
          simp only [List.mem_singleton] at hcc
          subst hcc
          exact (htr hfull).2
        · rw [if_neg hfull] at hcc
          cases hcc
      · intro h
        simp only [h3r] at h
        by_cases hfull : pos + 1 = st.remainingStreams
        · exact (htr hfull).1
        · rw [if_neg hfull] at h
          exact absurd rfl h
    | some j =>
      obtain ⟨hj, hju⟩ := planTarget_spec _ _ _ h2
      obtain ⟨B, m1c, m3c, mtrc, mflc⟩ := ih (pos + 1) j pl
        (searchStep P pos idx c k st).2.1 (searchStep P pos idx c k st).2.2
        (searchStep P pos idx c k st).1 hnd3 hj hju hcount3 hrem3 hpath3 hbest3
      have hchrem := findBestOrder_remaining P n (pos + 1) j pl
        (searchStep P pos idx c k st).2.1 (searchStep P pos idx c k st).2.2
        (searchStep P pos idx c k st).1
      rw [findBestOrder_unfold_np P n pos idx pl c k st j h1 h2]
      refine ⟨BestOK_cleanup _ _ _ B, le_trans hm1 m1c, ?_, ?_, ?_⟩
      · intro h
        obtain ⟨ha, hb⟩ := hm3 h
        obtain ⟨hc, hd⟩ := m3c (by rw [h3r]; exact ha)
        exact ⟨by rw [← h3r]; exact hc, le_trans hd hb⟩
      · intro cc hcc
        rcases List.mem_append.mp hcc with hcc | hcc
        · simp only [h3r] at hcc
          by_cases hfull : pos + 1 = st.remainingStreams
          · rw [if_pos hfull] at hcc
            simp only [List.mem_singleton] at hcc
            subst hcc
            obtain ⟨ha, hb⟩ := htr hfull
            obtain ⟨-, hd⟩ := m3c (by rw [h3r]; exact ha)
            exact le_trans hd hb
          · rw [if_neg hfull] at hcc
            cases hcc
        · exact mtrc cc hcc
      · intro h
        rcases append_ne_nil_cases h with h | h
        · simp only [h3r] at h
          by_cases hfull : pos + 1 = st.remainingStreams
          · obtain ⟨ha, -⟩ := htr hfull
            obtain ⟨hc, -⟩ := m3c (by rw [h3r]; exact ha)
            rw [← h3r]
            exact hc
          · rw [if_neg hfull] at h
            exact absurd rfl h
        · rw [← h3r]
          exact mflc h
  | some jp =>
    obtain ⟨hj, hju⟩ := descendTarget_spec _ _ _ _ _ _ h1
    obtain ⟨B1, m11, m31, mtr1, mfl1⟩ := ih (pos + 1) jp.1 jp.2
      (searchStep P pos idx c k st).2.1 (searchStep P pos idx c k st).2.2
      (searchStep P pos idx c k st).1 hnd3 hj hju hcount3 hrem3 hpath3 hbest3
    have hch1i := findBestOrder_innerStreams P n (pos + 1) jp.1 jp.2
      (searchStep P pos idx c k st).2.1 (searchStep P pos idx c k st).2.2
      (searchStep P pos idx c k st).1
    have hch1r := findBestOrder_remaining P n (pos + 1) jp.1 jp.2
      (searchStep P pos idx c k st).2.1 (searchStep P pos idx c k st).2.2
      (searchStep P pos idx c k st).1
    have hch1l := findBestOrder_joined_length P n (pos + 1) jp.1 jp.2
      (searchStep P pos idx c k st).2.1 (searchStep P pos idx c k st).2.2
      (searchStep P pos idx c k st).1
    have hch1p := findBestOrder_path_prefix P n (pos + 1) jp.1 jp.2
      (searchStep P pos idx c k st).2.1 (searchStep P pos idx c k st).2.2
      (searchStep P pos idx c k st).1 (pos + 1) le_rfl
    cases h2 : planTarget P
        (findBestOrder P n (pos + 1) jp.1 jp.2 (searchStep P pos idx c k st).2.1
          (searchStep P pos idx c k st).2.2 (searchStep P pos idx c k st).1).1 with
    | none =>
      rw [findBestOrder_unfold_dn P n pos idx pl c k st jp h1 h2]
      refine ⟨BestOK_cleanup _ _ _ B1, le_trans hm1 m11, ?_, ?_, ?_⟩
      · intro h
        obtain ⟨ha, hb⟩ := hm3 h
        obtain ⟨hc, hd⟩ := m31 (by rw [h3r]; exact ha)
        exact ⟨by rw [← h3r]; exact hc, le_trans hd hb⟩
      · intro cc hcc
        rcases List.mem_append.mp hcc with hcc | hcc
        · simp only [h3r] at hcc
          by_cases hfull : pos + 1 = st.remainingStreams
          · rw [if_pos hfull] at hcc
            simp only [List.mem_singleton] at hcc
            subst hcc
            obtain ⟨ha, hb⟩ := htr hfull
            obtain ⟨-, hd⟩ := m31 (by rw [h3r]; exact ha)
            exact le_trans hd hb
          · rw [if_neg hfull] at hcc
            cases hcc
        · exact mtr1 cc hcc
      · intro h
        rcases append_ne_nil_cases h with h | h
        · simp only [h3r] at h
          by_cases hfull : pos + 1 = st.remainingStreams
          · obtain ⟨ha, -⟩ := htr hfull
            obtain ⟨hc, -⟩ := m31 (by rw [h3r]; exact ha)
            rw [← h3r]
            exact hc
          · rw [if_neg hfull] at h
            exact absurd rfl h
        · rw [← h3r]
          exact mfl1 h
    | some j =>
      obtain ⟨hj2, hju2⟩ := planTarget_spec _ _ _ h2
      obtain ⟨B2, m12, m32, mtr2, mfl2⟩ := ih (pos + 1) j pl
        (searchStep P pos idx c k st).2.1 (searchStep P pos idx c k st).2.2
        (findBestOrder P n (pos + 1) jp.1 jp.2 (searchStep P pos idx c k st).2.1
          (searchStep P pos idx c k st).2.2 (searchStep P pos idx c k st).1).1
        (by rw [hch1i]; exact hnd3) hj2 hju2
        (by rw [hch1i, hch1r]; exact hcount3)
        (by rw [hch1r, hch1l]; exact hrem3)
        (by
          constructor
          · rw [hch1p]; exact hpath3.nodup
          · intro id hin
            rw [hch1p] at hin
            rw [hch1i]
            exact hpath3.mem_used _ hin)
        B1
      rw [findBestOrder_unfold_dp P n pos idx pl c k st jp j h1 h2]
      have hfullprop : pos + 1 = st.remainingStreams →
          (findBestOrder P n (pos + 1) j pl (searchStep P pos idx c k st).2.1
            (searchStep P pos idx c k st).2.2
            (findBestOrder P n (pos + 1) jp.1 jp.2 (searchStep P pos idx c k st).2.1
              (searchStep P pos idx c k st).2.2
              (searchStep P pos idx c k st).1).1).1.bestCount = st.remainingStreams ∧
          (findBestOrder P n (pos + 1) j pl (searchStep P pos idx c k st).2.1
            (searchStep P pos idx c k st).2.2
            (findBestOrder P n (pos + 1) jp.1 jp.2 (searchStep P pos idx c k st).2.1
              (searchStep P pos idx c k st).2.2
              (searchStep P pos idx c k st).1).1).1.bestCost ≤
            (searchStep P pos idx c k st).2.1 := by
        intro hfull
        obtain ⟨ha, hb⟩ := htr hfull
        obtain ⟨hc, hd⟩ := m31 (by rw [h3r]; exact ha)
        obtain ⟨he, hf⟩ := m32 (by rw [hch1r]; exact hc)
        refine ⟨by rw [← h3r, ← hch1r]; exact he, le_trans hf (le_trans hd hb)⟩
      refine ⟨BestOK_cleanup _ _ _ B2, le_trans hm1 (le_trans m11 m12), ?_, ?_, ?_⟩
      · intro h
        obtain ⟨ha, hb⟩ := hm3 h
        obtain ⟨hc, hd⟩ := m31 (by rw [h3r]; exact ha)
        obtain ⟨he, hf⟩ := m32 (by rw [hch1r]; exact hc)
        exact ⟨by rw [← h3r, ← hch1r]; exact he, le_trans hf (le_trans hd hb)⟩
      · intro cc hcc
        rcases List.mem_append.mp hcc with hcc | hcc
        · simp only [h3r] at hcc
          by_cases hfull : pos + 1 = st.remainingStreams
          · rw [if_pos hfull] at hcc
            simp only [List.mem_singleton] at hcc
            subst hcc
            exact (hfullprop hfull).2
          · rw [if_neg hfull] at hcc
            cases hcc
        · rcases List.mem_append.mp hcc with hcc | hcc
          · have hne : (findBestOrder P n (pos + 1) jp.1 jp.2
                (searchStep P pos idx c k st).2.1 (searchStep P pos idx c k st).2.2
                (searchStep P pos idx c k st).1).2 ≠ [] :=
              List.ne_nil_of_mem hcc
            obtain ⟨he, hf⟩ := m32 (by rw [hch1r]; exact mfl1 hne)
            exact le_trans hf (mtr1 cc hcc)
          · exact mtr2 cc hcc
      · intro h
        rcases append_ne_nil_cases h with h | h
        · simp only [h3r] at h
          by_cases hfull : pos + 1 = st.remainingStreams
          · exact (hfullprop hfull).1
          · rw [if_neg hfull] at h
            exact absurd rfl h
        · rcases append_ne_nil_cases h with h | h
          · obtain ⟨he, -⟩ := m32 (by rw [hch1r]; exact mfl1 h)
            rw [← h3r, ← hch1r]
            exact he
          · rw [← h3r, ← hch1r]
            exact mfl2 h

theorem findBestOrder_master (P : Params) (fuel : Nat) :
    ∀ (pos idx : Nat) (pl : List IndexRelationship) (c k : ℚ) (st : SearchState),
    (idsOf st.innerStreams).Nodup →
    idx < st.innerStreams.length →
    (st.innerStreams.getD idx default).used = false →
    pos + unusedCount st.innerStreams = st.remainingStreams →
    st.remainingStreams ≤ st.joinedStreams.length →
    PathOK st pos →
    BestOK st →
    BestOK (findBestOrder P fuel pos idx pl c k st).1 ∧
    st.bestCount ≤ (findBestOrder P fuel pos idx pl c k st).1.bestCount ∧
    (st.bestCount = st.remainingStreams →
      (findBestOrder P fuel pos idx pl c k st).1.bestCount = st.remainingStreams ∧
      (findBestOrder P fuel pos idx pl c k st).1.bestCost ≤ st.bestCost) ∧
    (∀ cc ∈ (findBestOrder P fuel pos idx pl c k st).2,
      (findBestOrder P fuel pos idx pl c k st).1.bestCost ≤ cc) ∧
    ((findBestOrder P fuel pos idx pl c k st).2 ≠ [] →
      (findBestOrder P fuel pos idx pl c k st).1.bestCount = st.remainingStreams) := by
  induction fuel with
  | zero =>
    intro pos idx pl c k st hnd hidx hunused hpos hrem hpath hbest
    exact ⟨hbest, le_rfl, fun h => ⟨h, le_rfl⟩, by simp [findBestOrder], by simp [findBestOrder]⟩
  | succ n ih =>
    intro pos idx pl c k st hnd hidx hunused hpos hrem hpath hbest
    have hU : 0 < unusedCount st.innerStreams := unusedCount_pos _ _ hidx hunused
    have hposlt : pos < st.joinedStreams.length := by omega
    have hple : pos + 1 ≤ st.remainingStreams := by omega
    have h3i := searchStep_innerStreams P pos idx c k st
    have h3r := searchStep_remaining P pos idx c k st
    have h3l := searchStep_joined_length P pos idx c k st
    have h3p := searchStep_path P pos idx c k st hposlt
    have hidnotpath : (st.innerStreams.getD idx default).stream ∉ pathOf st pos := by
      intro hin
      exact unused_id_not_in_usedIds _ _ hnd hidx hunused (hpath.mem_used _ hin)
    have hids3 : idsOf (searchStep P pos idx c k st).1.innerStreams = idsOf st.innerStreams := by
      rw [h3i]; exact setUsedAt_map_stream _ _ _
    have hnd3 : (idsOf (searchStep P pos idx c k st).1.innerStreams).Nodup := by
      rw [hids3]; exact hnd
    have hcount3 : (pos + 1) + unusedCount (searchStep P pos idx c k st).1.innerStreams
        = (searchStep P pos idx c k st).1.remainingStreams := by
      rw [h3i, h3r]
      have := unusedCount_setUsedAt st.innerStreams idx hidx hunused
      omega
    have hrem3 : (searchStep P pos idx c k st).1.remainingStreams
        ≤ (searchStep P pos idx c k st).1.joinedStreams.length := by
      rw [h3r, h3l]; exact hrem
    have hpathnd : (pathOf st pos ++ [(st.innerStreams.getD idx default).stream]).Nodup := by
      rw [List.nodup_append]
      refine ⟨hpath.nodup, List.nodup_singleton _, ?_⟩
      intro x hx hx2
      simp only [List.mem_singleton] at hx2
      subst hx2
      exact hidnotpath hx
    have hpath3 : PathOK (searchStep P pos idx c k st).1 (pos + 1) := by
      constructor
      · rw [h3p]; exact hpathnd
      · intro id hin
        rw [h3p] at hin
        rw [h3i]
        rcases List.mem_append.mp hin with h | h
        · exact usedIds_setUsedAt_true _ _ _ (hpath.mem_used _ h)
        · have heq : id = (st.innerStreams.getD idx default).stream := by simpa using h
          rw [heq]
          exact getD_stream_mem_usedIds_setUsedAt _ _ hidx
    rcases searchStep_best P pos idx c k st hposlt with
      ⟨hb1, hb2, hb3, hb4⟩ | ⟨hb1, hb2, hb3, hb4⟩
    -- commit case facts
    · 
      have hbest3 : BestOK (searchStep P pos idx c k st).1 := by
        constructor
        · rw [hb3]; exact hpathnd
        · rw [hb1, h3r]; exact hple
        · intro id hin
          rw [hb3] at hin
          rw [hids3]
          rcases List.mem_append.mp hin with h | h
          · exact usedIds_subset_ids _ _ (hpath.mem_used _ h)
          · have heq : id = (st.innerStreams.getD idx default).stream := by simpa using h
            rw [heq]
            exact List.mem_map_of_mem _ (getD_mem _ _ hidx)
      have hm1 : st.bestCount ≤ (searchStep P pos idx c k st).1.bestCount := by
        rw [hb1]; rcases hb4 with h | ⟨h, -⟩ <;> omega
      have hm3 : st.bestCount = st.remainingStreams →
          (searchStep P pos idx c k st).1.bestCount = st.remainingStreams ∧
          (searchStep P pos idx c k st).1.bestCost ≤ st.bestCost := by
        intro h
        rcases hb4 with hlt | ⟨heq, hcost⟩
        · omega
        · exact ⟨by rw [hb1, heq, h], by rw [hb2]; exact le_of_lt hcost⟩
      have htr : pos + 1 = st.remainingStreams →
          (searchStep P pos idx c k st).1.bestCount = st.remainingStreams ∧
          (searchStep P pos idx c k st).1.bestCost ≤ (searchStep P pos idx c k st).2.1 := by
        intro h
        exact ⟨by rw [hb1, h], by rw [hb2]⟩
      exact findBestOrder_master_assemble P n ih pos idx pl c k st hnd hidx hunused hpos
        hrem hbest hnd3 hcount3 hrem3 hpath3 hbest3 hm1 hm3 htr h3i h3r
    · 
      have hbest3 : BestOK (searchStep P pos idx c k st).1 := by
        constructor
        · rw [hb3]; exact hbest.nodup
        · rw [hb1, h3r]; exact hbest.le_remaining
        · intro id hin
          rw [hb3] at hin
          rw [hids3]
          exact hbest.mem_ids _ hin
      have hm1 : st.bestCount ≤ (searchStep P pos idx c k st).1.bestCount := by
        rw [hb1]
      have hm3 : st.bestCount = st.remainingStreams →
          (searchStep P pos idx c k st).1.bestCount = st.remainingStreams ∧
          (searchStep P pos idx c k st).1.bestCost ≤ st.bestCost := by
        intro h
        exact ⟨by rw [hb1, h], by rw [hb2]⟩
      have htr : pos + 1 = st.remainingStreams →
          (searchStep P pos idx c k st).1.bestCount = st.remainingStreams ∧
          (searchStep P pos idx c k st).1.bestCost ≤ (searchStep P pos idx c k st).2.1 := by
        intro h
        have hge : ¬(st.bestCount < pos + 1) := fun hc => hb4 (Or.inl hc)
        have hbc : st.bestCount = pos + 1 := by
          have := hbest.le_remaining
          omega
        have hnc : ¬((searchStep P pos idx c k st).2.1 < st.bestCost) := by
          intro hc
          exact hb4 (Or.inr ⟨hbc.symm, hc⟩)
        exact ⟨by rw [hb1, hbc, h], by rw [hb2]; exact le_of_not_lt hnc⟩
      exact findBestOrder_master_assemble P n ih pos idx pl c k st hnd hidx hunused hpos
        hrem hbest hnd3 hcount3 hrem3 hpath3 hbest3 hm1 hm3 htr h3i h3r

/-! Connectivity through the dependency graph: the search only ever descends into
streams that are targets of an indexed relationship of an earlier stream of the path. -/

theorem relTargets_setUsedAt (l : List StreamInfo) :
    ∀ (i : Nat) (b : Bool) (id : Nat), relTargets (setUsedAt l i b) id = relTargets l id := by
  induction l with
  | nil => intro i b id; cases i <;> rfl
  | cons s ss ih =>
    intro i b id
    cases i with
    | zero =>
      show relTargets ({ s with used := b } :: ss) id = relTargets (s :: ss) id
      simp only [relTargets, getStreamInfo]
      cases h : s.stream == id
      · rw [List.find?_cons_of_neg _ (by simpa using h),
            List.find?_cons_of_neg _ (by simpa using h)]
      · rw [List.find?_cons_of_pos _ (by simpa using h),
            List.find?_cons_of_pos _ (by simpa using h)]
    | succ n =>
      show relTargets (s :: setUsedAt ss n b) id = relTargets (s :: ss) id
      simp only [relTargets, getStreamInfo]
      cases h : s.stream == id
      · rw [List.find?_cons_of_neg _ (by simpa using h),
            List.find?_cons_of_neg _ (by simpa using h)]
        have := ih n b id
        simpa [relTargets, getStreamInfo] using this
      · rw [List.find?_cons_of_pos _ (by simpa using h),
            List.find?_cons_of_pos _ (by simpa using h)]

theorem connectedAt_congr (l1 l2 : List StreamInfo)
    (h : ∀ id, relTargets l1 id = relTargets l2 id) (o : List Nat) (kk : Nat) :
    connectedAt l1 o kk ↔ connectedAt l2 o kk := by
  unfold connectedAt
  constructor
  · rintro ⟨j, hj, hm⟩
    exact ⟨j, hj, by rw [← h]; exact hm⟩
  · rintro ⟨j, hj, hm⟩
    exact ⟨j, hj, by rw [h]; exact hm⟩

theorem connectedOrder_congr (l1 l2 : List StreamInfo)
    (h : ∀ id, relTargets l1 id = relTargets l2 id) (o : List Nat) :
    connectedOrder l1 o ↔ connectedOrder l2 o := by
  unfold connectedOrder
  constructor
  · intro hc kk h1 h2
    exact (connectedAt_congr l1 l2 h o kk).mp (hc kk h1 h2)
  · intro hc kk h1 h2
    exact (connectedAt_congr l1 l2 h o kk).mpr (hc kk h1 h2)

theorem mem_insertSorted (r : IndexRelationship) :
    ∀ (pl : List IndexRelationship) (e : IndexRelationship),
    e ∈ insertSorted r pl → e = r ∨ e ∈ pl := by
  intro pl
  induction pl with
  | nil => intro e he; simpa [insertSorted] using he
  | cons p ps ih =>
    intro e he
    simp only [insertSorted] at he
    split at he
    · rcases List.mem_cons.mp he with h | h
      · exact Or.inl h
      · exact Or.inr h
    · rcases List.mem_cons.mp he with h | h
      · exact Or.inr (h ▸ List.mem_cons_self _ _)
      · rcases ih e h with h2 | h2
        · exact Or.inl h2
        · exact Or.inr (List.mem_cons_of_mem _ h2)

theorem mem_removeFirstRel (id : Nat) :
    ∀ (pl : List IndexRelationship) (e : IndexRelationship),
    e ∈ removeFirstRel id pl → e ∈ pl := by
  intro pl
  induction pl with
  | nil => intro e he; exact he
  | cons p ps ih =>
    intro e he
    simp only [removeFirstRel] at he
    split at he
    · exact List.mem_cons_of_mem _ he
    · rcases List.mem_cons.mp he with h | h
      · exact h ▸ List.mem_cons_self _ _
      · exact List.mem_cons_of_mem _ (ih e h)

theorem mem_mergeRelationship (r : IndexRelationship) (pl : List IndexRelationship)
    (e : IndexRelationship) (h : e ∈ mergeRelationship r pl) : e = r ∨ e ∈ pl := by
  simp only [mergeRelationship] at h
  cases hf : pl.find? (fun p => p.stream == r.stream) with
  | none =>
    simp only [hf] at h
    exact mem_insertSorted r pl e h
  | some old =>
    simp only [hf] at h
    split at h
    · rcases mem_insertSorted r _ e h with h2 | h2
      · exact Or.inl h2
      · exact Or.inr (mem_removeFirstRel _ _ _ h2)
    · exact Or.inr h

theorem mem_addRelationships (streams : List StreamInfo) :
    ∀ (rs pl : List IndexRelationship) (e : IndexRelationship),
    e ∈ addRelationships streams rs pl → e ∈ rs ∨ e ∈ pl := by
  intro rs
  induction rs with
  | nil => intro pl e he; exact Or.inr he
  | cons r rs2 ih =>
    intro pl e he
    simp only [addRelationships] at he
    cases hg : getStreamInfo streams r.stream with
    | none =>
      simp only [hg] at he
      rcases ih pl e he with h | h
      · exact Or.inl (List.mem_cons_of_mem _ h)
      · exact Or.inr h
    | some info =>
      simp only [hg] at he
      by_cases hu : info.used = true
      · rw [if_pos hu] at he
        rcases ih pl e he with h | h
        · exact Or.inl (List.mem_cons_of_mem _ h)
        · exact Or.inr h
      · rw [if_neg hu] at he
        rcases ih _ e he with h | h
        · exact Or.inl (List.mem_cons_of_mem _ h)
        · rcases mem_mergeRelationship r pl e h with h2 | h2
          · exact Or.inl (h2 ▸ List.mem_cons_self _ _)
          · exact Or.inr h2

theorem nextProcessIdx_target (streams : List StreamInfo) :
    ∀ (pl : List IndexRelationship) (j : Nat), nextProcessIdx streams pl = some j →
    ∃ e ∈ pl, (streams.getD j default).stream = e.stream := by
  intro pl
  induction pl with
  | nil => intro j h; simp [nextProcessIdx] at h
  | cons r rs ih =>
    intro j h
    simp only [nextProcessIdx] at h
    cases hf : List.findIdx? (fun s => s.stream == r.stream) streams with
    | none =>
      rw [hf] at h
      obtain ⟨e, he, hs⟩ := ih j h
      exact ⟨e, List.mem_cons_of_mem _ he, hs⟩
    | some j0 =>
      simp only [hf] at h
      by_cases hu : (streams.getD j0 default).used = true
      · rw [if_pos hu] at h
        obtain ⟨e, he, hs⟩ := ih j h
        exact ⟨e, List.mem_cons_of_mem _ he, hs⟩
      · rw [if_neg hu] at h
        obtain ⟨hlt, hp, -⟩ := List.findIdx?_eq_some_iff_getElem.mp hf
        have hj : j = j0 := by injection h with h2; exact h2.symm
        subst hj
        refine ⟨r, List.mem_cons_self _ _, ?_⟩
        have hgd : streams.getD j default = streams[j] := by
          simp [List.getD_eq_getElem?_getD, List.getElem?_eq_getElem hlt]
        rw [hgd]
        simpa using hp

theorem descendTarget_some (P : Params) (st3 : SearchState) (info : StreamInfo)
    (pl : List IndexRelationship) (done : Bool) (jp : Nat × List IndexRelationship)
    (h : descendTarget P st3 info pl done = some jp) :
    jp.2 = addRelationships st3.innerStreams info.indexedRelationships pl ∧
    nextProcessIdx st3.innerStreams jp.2 = some jp.1 := by
  simp only [descendTarget] at h
  split at h
  · cases hn : nextProcessIdx st3.innerStreams
        (addRelationships st3.innerStreams info.indexedRelationships pl) with
    | none => simp only [hn] at h; cases h
    | some j =>
      simp only [hn] at h
      cases h
      exact ⟨rfl, hn⟩
  · cases h

theorem planTarget_of_not_plan (P : Params) (st : SearchState) (h : P.plan = false) :
    planTarget P st = none := by
  simp [planTarget, h]

theorem getStreamInfo_getD (l : List StreamInfo) :
    ∀ (idx : Nat), (idsOf l).Nodup → idx < l.length →
    getStreamInfo l (l.getD idx default).stream = some (l.getD idx default) := by
  induction l with
  | nil => intro idx _ h; cases h
  | cons s ss ih =>
    intro idx hnd hidx
    cases idx with
    | zero =>
      show List.find? (fun t => t.stream == s.stream) (s :: ss) = some s
      rw [List.find?_cons_of_pos _ (by simp)]
    | succ n =>
      have hn : n < ss.length := by simpa using hidx
      have hhd : s.stream ∉ ss.map (·.stream) := (List.nodup_cons.mp hnd).1
      have hne : ¬(s.stream == (ss.getD n default).stream) = true := by
        simp only [beq_iff_eq]
        intro hc
        exact hhd (hc ▸ List.mem_map_of_mem _ (getD_mem ss n hn))
      rw [getD_cons_succ_eq]
      show List.find? (fun t => t.stream == (ss.getD n default).stream) (s :: ss)
        = some (ss.getD n default)
      rw [List.find?_cons]
      have hne2 : (s.stream == (ss.getD n default).stream) = false := by
        simpa using hne
      rw [hne2]
      exact ih n (List.nodup_cons.mp hnd).2 hn

theorem pathOf_length (st : SearchState) (pos : Nat) (h : pos ≤ st.joinedStreams.length) :
    (pathOf st pos).length = pos := by
  simp [pathOf, List.length_take]
  omega

theorem getD_append_lt {l l2 : List Nat} {kk : Nat} (h : kk < l.length) :
    (l ++ l2).getD kk 0 = l.getD kk 0 := by
  simp [List.getD_eq_getElem?_getD, List.getElem?_append_left h]

theorem getD_append_self {l : List Nat} {a : Nat} :
    (l ++ [a]).getD l.length 0 = a := by
  simp [List.getD_eq_getElem?_getD, List.getElem?_append_right (Nat.le_refl _)]

theorem findBestOrder_conn (P : Params) (hplan : P.plan = false) (fuel : Nat) :
    ∀ (pos idx : Nat) (pl : List IndexRelationship) (c k : ℚ) (st : SearchState),
    (idsOf st.innerStreams).Nodup →
    idx < st.innerStreams.length →
    (st.innerStreams.getD idx default).used = false →
    pos + unusedCount st.innerStreams = st.remainingStreams →
    st.remainingStreams ≤ st.joinedStreams.length →
    connectedOrder st.innerStreams (pathOf st pos) →
    (pos = 0 ∨ ∃ jj, jj < pos ∧ (st.innerStreams.getD idx default).stream ∈
        relTargets st.innerStreams ((pathOf st pos).getD jj 0)) →
    (∀ e ∈ pl, ∃ jj, jj < pos ∧ e.stream ∈
        relTargets st.innerStreams ((pathOf st pos).getD jj 0)) →
    connectedOrder st.innerStreams (bestSlotsOf st) →
    connectedOrder st.innerStreams (bestSlotsOf (findBestOrder P fuel pos idx pl c k st).1) := by
  induction fuel with
  | zero => intro pos idx pl c k st _ _ _ _ _ _ _ _ hbc; exact hbc
  | succ n ih =>
    intro pos idx pl c k st hnd hidx hunused hposq hrem hcp hseed hpl hbc
    have hU : 0 < unusedCount st.innerStreams := unusedCount_pos _ _ hidx hunused
    have hposlt : pos < st.joinedStreams.length := by omega
    have h3i := searchStep_innerStreams P pos idx c k st
    have h3r := searchStep_remaining P pos idx c k st
    have h3l := searchStep_joined_length P pos idx c k st
    have h3p := searchStep_path P pos idx c k st hposlt
    have hplen : (pathOf st pos).length = pos := pathOf_length st pos (by omega)
    have hrt : ∀ id, relTargets (searchStep P pos idx c k st).1.innerStreams id
        = relTargets st.innerStreams id := by
      intro id
      rw [h3i]
      exact relTargets_setUsedAt _ _ _ _
    have hgd_lt : ∀ jj, jj < pos →
        (pathOf (searchStep P pos idx c k st).1 (pos + 1)).getD jj 0
          = (pathOf st pos).getD jj 0 := by
      intro jj hjj
      rw [h3p]
      exact getD_append_lt (by omega)
    have hgd_last : (pathOf (searchStep P pos idx c k st).1 (pos + 1)).getD pos 0
        = (st.innerStreams.getD idx default).stream := by
      rw [h3p]
      have h := @getD_append_self (pathOf st pos) (st.innerStreams.getD idx default).stream
      rw [hplen] at h
      exact h
    have hlen3 : (pathOf (searchStep P pos idx c k st).1 (pos + 1)).length = pos + 1 := by
      apply pathOf_length
      rw [h3l]
      omega
    have hcp3 : connectedOrder st.innerStreams
        (pathOf (searchStep P pos idx c k st).1 (pos + 1)) := by
      intro kk hkklen hkk0
      rw [hlen3] at hkklen
      by_cases hkk : kk < pos
      · obtain ⟨j, hj, hm⟩ := hcp kk (by omega) hkk0
        exact ⟨j, hj, by rw [hgd_lt kk hkk, hgd_lt j (by omega)]; exact hm⟩
      · have hkkeq : kk = pos := by omega
        subst hkkeq
        rcases hseed with h0 | ⟨jj, hjj, hm⟩
        · omega
        · exact ⟨jj, hjj, by rw [hgd_last, hgd_lt jj hjj]; exact hm⟩
    have hsid : relTargets st.innerStreams (st.innerStreams.getD idx default).stream
        = (st.innerStreams.getD idx default).indexedRelationships.map (·.stream) := by
      unfold relTargets
      rw [getStreamInfo_getD st.innerStreams idx hnd hidx]
    have hbc3 : connectedOrder st.innerStreams
        (bestSlotsOf (searchStep P pos idx c k st).1) := by
      rcases searchStep_best P pos idx c k st hposlt with
        ⟨hb1, hb2, hb3, hb4⟩ | ⟨hb1, hb2, hb3, hb4⟩
      · rw [hb3, ← h3p]
        exact hcp3
      · rw [hb3]
        exact hbc
    cases h1 : descendTarget P (searchStep P pos idx c k st).1
        (st.innerStreams.getD idx default) pl
        (pruneFlag (searchStep P pos idx c k st).1 (pos + 1)
          (searchStep P pos idx c k st).2.1) with
    | none =>
      rw [findBestOrder_unfold_nn P n pos idx pl c k st h1
        (planTarget_of_not_plan P _ hplan)]
      exact hbc3
    | some jp =>
      obtain ⟨hj, hju⟩ := descendTarget_spec _ _ _ _ _ _ h1
      obtain ⟨hpl1eq, hnpi⟩ := descendTarget_some _ _ _ _ _ _ h1
      have hresolve : ∀ e ∈ jp.2, ∃ jj, jj < pos + 1 ∧ e.stream ∈
          relTargets st.innerStreams
            ((pathOf (searchStep P pos idx c k st).1 (pos + 1)).getD jj 0) := by
        intro e he
        rw [hpl1eq] at he
        rcases mem_addRelationships _ _ _ _ he with hin | hin
        · refine ⟨pos, by omega, ?_⟩
          rw [hgd_last, hsid]
          exact List.mem_map_of_mem _ hin
        · obtain ⟨jj, hjj, hm⟩ := hpl e hin
          refine ⟨jj, by omega, ?_⟩
          rw [hgd_lt jj hjj]
          exact hm
      have hnd3 : (idsOf (searchStep P pos idx c k st).1.innerStreams).Nodup := by
        rw [h3i]
        show ((setUsedAt st.innerStreams idx true).map (·.stream)).Nodup
        rw [setUsedAt_map_stream]
        exact hnd
      have hcount3 : (pos + 1) + unusedCount (searchStep P pos idx c k st).1.innerStreams
          = (searchStep P pos idx c k st).1.remainingStreams := by
        rw [h3i, h3r]
        have := unusedCount_setUsedAt st.innerStreams idx hidx hunused
        omega
      have hrem3 : (searchStep P pos idx c k st).1.remainingStreams
          ≤ (searchStep P pos idx c k st).1.joinedStreams.length := by
        rw [h3r, h3l]
        exact hrem
      have hchild := ih (pos + 1) jp.1 jp.2 (searchStep P pos idx c k st).2.1
        (searchStep P pos idx c k st).2.2 (searchStep P pos idx c k st).1
        hnd3 hj hju hcount3 hrem3
        ((connectedOrder_congr _ _ hrt _).mpr hcp3)
        (Or.inr (by
          obtain ⟨e, he, hs⟩ := nextProcessIdx_target _ _ _ hnpi
          obtain ⟨jj, hjj, hm⟩ := hresolve e he
          exact ⟨jj, hjj, by rw [hrt, hs]; exact hm⟩))
        (fun e he => by
          obtain ⟨jj, hjj, hm⟩ := hresolve e he
          exact ⟨jj, hjj, by rw [hrt]; exact hm⟩)
        ((connectedOrder_congr _ _ hrt _).mpr hbc3)
      rw [findBestOrder_unfold_dn P n pos idx pl c k st jp h1
        (planTarget_of_not_plan P _ hplan)]
      exact (connectedOrder_congr _ _ hrt _).mp hchild

/-! Characterization of the seed selection of the first pass of `findJoinOrder`:
the kept stream is the earliest not-yet-used independent stream with minimal base cost. -/

/-- The not-yet-used independent streams, in store order. -/
def seedCandidates (l : List StreamInfo) : List StreamInfo :=
  l.filter (fun s => !s.used && s.isIndependent)

/-- The reference seed-selection fold: keep the current best, replace it only on a
strictly smaller base cost. -/
def seedChoice : Option StreamInfo → List StreamInfo → Option StreamInfo
  | acc, [] => acc
  | acc, info :: rest =>
    if info.used = false ∧ info.isIndependent = true then
      match acc with
      | none => seedChoice (some info) rest
      | some b =>
        if info.baseCost < b.baseCost then seedChoice (some info) rest
        else seedChoice (some b) rest
    else seedChoice acc rest

theorem seedCandidates_cons_pos {i : StreamInfo} {rest : List StreamInfo}
    (h : i.used = false ∧ i.isIndependent = true) :
    seedCandidates (i :: rest) = i :: seedCandidates rest := by
  simp [seedCandidates, List.filter_cons, h.1, h.2]

theorem seedCandidates_cons_neg {i : StreamInfo} {rest : List StreamInfo}
    (h : ¬(i.used = false ∧ i.isIndependent = true)) :
    seedCandidates (i :: rest) = seedCandidates rest := by
  have hb : (!i.used && i.isIndependent) = false := by
    cases hu : i.used
    · cases hi : i.isIndependent
      · simp
      · exact absurd ⟨hu, hi⟩ h
    · simp
  simp [seedCandidates, List.filter_cons, hb]

theorem seedChoice_some_isSome (l : List StreamInfo) :
    ∀ b : StreamInfo, ∃ c, seedChoice (some b) l = some c := by
  induction l with
  | nil => intro b; exact ⟨b, rfl⟩
  | cons i rest ih =>
    intro b
    by_cases h : i.used = false ∧ i.isIndependent = true
    · simp only [seedChoice, if_pos h]
      by_cases hc : i.baseCost < b.baseCost
      · rw [if_pos hc]; exact ih i
      · rw [if_neg hc]; exact ih b
    · simp only [seedChoice, if_neg h]
      exact ih b

theorem seedChoice_some_spec (l : List StreamInfo) :
    ∀ b c : StreamInfo, seedChoice (some b) l = some c →
    ∃ l1 l2, b :: seedCandidates l = l1 ++ c :: l2 ∧
      (∀ t ∈ l1, c.baseCost < t.baseCost) ∧ (∀ t ∈ l2, c.baseCost ≤ t.baseCost) := by
  induction l with
  | nil =>
    intro b c h
    injection h with h
    subst h
    exact ⟨[], [], by simp [seedCandidates], by simp, by simp⟩
  | cons i rest ih =>
    intro b c h
    by_cases hcand : i.used = false ∧ i.isIndependent = true
    · rw [seedCandidates_cons_pos hcand]
      simp only [seedChoice, if_pos hcand] at h
      by_cases hc : i.baseCost < b.baseCost
      · rw [if_pos hc] at h
        obtain ⟨l1, l2, heq, hlt, hle⟩ := ih i c h
        cases l1 with
        | nil =>
          have hic : i = c := by simpa using congrArg List.headI heq
          have htl : seedCandidates rest = l2 := by
            have := congrArg List.tail heq
            simpa using this
          refine ⟨[b], l2, ?_, ?_, hle⟩
          · simp only [List.singleton_append]
            rw [← hic, htl]
          · intro t ht
            simp only [List.mem_singleton] at ht
            subst ht
            rw [← hic]
            exact hc
        | cons x l1tl =>
          have hix : i = x := by simpa using congrArg List.headI heq
          have htl : seedCandidates rest = l1tl ++ c :: l2 := by
            have := congrArg List.tail heq
            simpa using this
          have hclt : c.baseCost < i.baseCost := by
            have := hlt x (List.mem_cons_self _ _)
            rw [← hix] at this
            exact this
          refine ⟨b :: i :: l1tl, l2, ?_, ?_, hle⟩
          · simp only [List.cons_append]
            rw [htl]
          · intro t ht
            rcases List.mem_cons.mp ht with rfl | ht
            · exact lt_trans hclt hc
            · rcases List.mem_cons.mp ht with rfl | ht
              · exact hclt
              · exact hlt t (List.mem_cons_of_mem _ ht)
      · rw [if_neg hc] at h
        obtain ⟨l1, l2, heq, hlt, hle⟩ := ih b c h
        cases l1 with
        | nil =>
          have hbc : b = c := by simpa using congrArg List.headI heq
          have htl : seedCandidates rest = l2 := by
            have := congrArg List.tail heq
            simpa using this
          refine ⟨[], i :: l2, ?_, by simp, ?_⟩
          · simp only [List.nil_append]
            rw [← hbc, htl]
          · intro t ht
            rcases List.mem_cons.mp ht with rfl | ht
            · rw [← hbc]
              exact le_of_not_lt hc
            · exact hle t ht
        | cons x l1tl =>
          have hbx : b = x := by simpa using congrArg List.headI heq
          have htl : seedCandidates rest = l1tl ++ c :: l2 := by
            have := congrArg List.tail heq
            simpa using this
          have hclt : c.baseCost < b.baseCost := by
            have := hlt x (List.mem_cons_self _ _)
            rw [← hbx] at this
            exact this
          refine ⟨b :: i :: l1tl, l2, ?_, ?_, hle⟩
          · simp only [List.cons_append]
            rw [htl]
          · intro t ht
            rcases List.mem_cons.mp ht with rfl | ht
            · exact hclt
            · rcases List.mem_cons.mp ht with rfl | ht
              · exact lt_of_lt_of_le hclt (le_of_not_lt hc)
              · exact hlt t (List.mem_cons_of_mem _ ht)
    · rw [seedCandidates_cons_neg hcand]
      simp only [seedChoice, if_neg hcand] at h
      exact ih b c h

theorem seedChoice_none_spec (l : List StreamInfo) :
    ∀ c : StreamInfo, seedChoice none l = some c →
    ∃ l1 l2, seedCandidates l = l1 ++ c :: l2 ∧
      (∀ t ∈ l1, c.baseCost < t.baseCost) ∧ (∀ t ∈ l2, c.baseCost ≤ t.baseCost) := by
  induction l with
  | nil => intro c h; cases h
  | cons i rest ih =>
    intro c h
    by_cases hcand : i.used = false ∧ i.isIndependent = true
    · rw [seedCandidates_cons_pos hcand]
      simp only [seedChoice, if_pos hcand] at h
      obtain ⟨l1, l2, heq, hlt, hle⟩ := seedChoice_some_spec rest i c h
      exact ⟨l1, l2, by rw [← heq], hlt, hle⟩
    · rw [seedCandidates_cons_neg hcand]
      simp only [seedChoice, if_neg hcand] at h
      exact ih c h

theorem seedChoice_none_of_no_candidates (l : List StreamInfo) :
    seedCandidates l = [] → seedChoice none l = none := by
  induction l with
  | nil => intro _; rfl
  | cons i rest ih =>
    intro h
    by_cases hcand : i.used = false ∧ i.isIndependent = true
    · rw [seedCandidates_cons_pos hcand] at h
      cases h
    · rw [seedCandidates_cons_neg hcand] at h
      simp only [seedChoice, if_neg hcand]
      exact ih h

theorem seedChoice_isSome_of_candidates (l : List StreamInfo) :
    seedCandidates l ≠ [] → ∃ c, seedChoice none l = some c := by
  induction l with
  | nil => intro h; exact absurd rfl h
  | cons i rest ih =>
    intro h
    by_cases hcand : i.used = false ∧ i.isIndependent = true
    · simp only [seedChoice, if_pos hcand]
      exact seedChoice_some_isSome rest i
    · rw [seedCandidates_cons_neg hcand] at h
      simp only [seedChoice, if_neg hcand]
      exact ih h

/-! Behaviour of the first pass of `findJoinOrder`. -/

/-- The best stream recorded in slot zero. -/
def slot0best (st : SearchState) : Nat :=
  (st.joinedStreams.getD 0 default).bestStream

theorem firstPassStep_used (acc : FirstPassAcc) (info : StreamInfo)
    (hu : info.used = true) : firstPassStep acc info = acc := by
  simp [firstPassStep, hu]

theorem firstPassStep_st (acc : FirstPassAcc) (info : StreamInfo)
    (hu : info.used = false) :
    (firstPassStep acc info).st =
      if info.isIndependent = true ∧
          (acc.st.bestCount = 0 ∨ info.baseCost < acc.st.bestCost) then
        { acc.st with
            joinedStreams := setSlotBest 0 info.stream acc.st.joinedStreams,
            bestCount := 1, bestCost := info.baseCost,
            remainingStreams := acc.st.remainingStreams + 1 }
      else { acc.st with remainingStreams := acc.st.remainingStreams + 1 } := by
  simp only [firstPassStep, hu, Bool.false_eq_true, if_false]

theorem firstPassStep_inner (acc : FirstPassAcc) (info : StreamInfo) :
    (firstPassStep acc info).st.innerStreams = acc.st.innerStreams := by
  cases hu : info.used
  · rw [firstPassStep_st acc info hu]
    split <;> rfl
  · rw [firstPassStep_used acc info hu]

theorem firstPassStep_active (acc : FirstPassAcc) (info : StreamInfo) :
    (firstPassStep acc info).st.active = acc.st.active := by
  cases hu : info.used
  · rw [firstPassStep_st acc info hu]
    split <;> rfl
  · rw [firstPassStep_used acc info hu]

theorem firstPassStep_joined_length (acc : FirstPassAcc) (info : StreamInfo) :
    (firstPassStep acc info).st.joinedStreams.length = acc.st.joinedStreams.length := by
  cases hu : info.used
  · rw [firstPassStep_st acc info hu]
    split
    · simp [setSlotBest_length]
    · rfl
  · rw [firstPassStep_used acc info hu]

theorem firstPassStep_remaining (acc : FirstPassAcc) (info : StreamInfo) :
    (firstPassStep acc info).st.remainingStreams
      = acc.st.remainingStreams + (if info.used then 0 else 1) := by
  cases hu : info.used
  · rw [firstPassStep_st acc info hu]
    split <;> rfl
  · rw [firstPassStep_used acc info hu]
    rfl

theorem firstPassStep_char (acc : FirstPassAcc) (info : StreamInfo)
    (hu : info.used = false) :
    if info.isIndependent = true ∧
        (acc.st.bestCount = 0 ∨ info.baseCost < acc.st.bestCost) then
      (firstPassStep acc info).st.bestCount = 1 ∧
      (firstPassStep acc info).st.bestCost = info.baseCost ∧
      (firstPassStep acc info).st.joinedStreams
        = setSlotBest 0 info.stream acc.st.joinedStreams
    else
      (firstPassStep acc info).st.bestCount = acc.st.bestCount ∧
      (firstPassStep acc info).st.bestCost = acc.st.bestCost ∧
      (firstPassStep acc info).st.joinedStreams = acc.st.joinedStreams := by
  by_cases hg : info.isIndependent = true ∧
      (acc.st.bestCount = 0 ∨ info.baseCost < acc.st.bestCost)
  · rw [if_pos hg, firstPassStep_st acc info hu, if_pos hg]
    exact ⟨rfl, rfl, rfl⟩
  · rw [if_neg hg, firstPassStep_st acc info hu, if_neg hg]
    exact ⟨rfl, rfl, rfl⟩

theorem firstPassFold_inner (l : List StreamInfo) :
    ∀ acc, (l.foldl firstPassStep acc).st.innerStreams = acc.st.innerStreams := by
  induction l with
  | nil => intro acc; rfl
  | cons i rest ih =>
    intro acc
    rw [List.foldl_cons, ih, firstPassStep_inner]

theorem firstPassFold_active (l : List StreamInfo) :
    ∀ acc, (l.foldl firstPassStep acc).st.active = acc.st.active := by
  induction l with
  | nil => intro acc; rfl
  | cons i rest ih =>
    intro acc
    rw [List.foldl_cons, ih, firstPassStep_active]

theorem firstPassFold_joined_length (l : List StreamInfo) :
    ∀ acc, (l.foldl firstPassStep acc).st.joinedStreams.length
      = acc.st.joinedStreams.length := by
  induction l with
  | nil => intro acc; rfl
  | cons i rest ih =>
    intro acc
    rw [List.foldl_cons, ih, firstPassStep_joined_length]

theorem firstPassFold_remaining (l : List StreamInfo) :
    ∀ acc, (l.foldl firstPassStep acc).st.remainingStreams
      = acc.st.remainingStreams + unusedCount l := by
  induction l with
  | nil => intro acc; simp [unusedCount]
  | cons i rest ih =>
    intro acc
    rw [List.foldl_cons, ih, firstPassStep_remaining]
    cases hu : i.used <;> simp [unusedCount, List.filter_cons, hu] <;> omega

theorem slot0best_setSlotBest (id : Nat) (js : List JoinedStream) (h : 0 < js.length) :
    ((setSlotBest 0 id js).getD 0 default).bestStream = id := by
  cases js with
  | nil => cases h
  | cons a as => rfl

theorem firstPassFold_best (l : List StreamInfo) :
    ∀ (acc : FirstPassAcc), 0 < acc.st.joinedStreams.length →
    (acc.st.bestCount = 0 →
      ((seedChoice none l = none → (l.foldl firstPassStep acc).st.bestCount = 0) ∧
       (∀ c, seedChoice none l = some c →
         (l.foldl firstPassStep acc).st.bestCount = 1 ∧
         (l.foldl firstPassStep acc).st.bestCost = c.baseCost ∧
         slot0best (l.foldl firstPassStep acc).st = c.stream))) ∧
    (∀ b : StreamInfo, acc.st.bestCount = 1 → acc.st.bestCost = b.baseCost →
       slot0best acc.st = b.stream →
       (∀ c, seedChoice (some b) l = some c →
         (l.foldl firstPassStep acc).st.bestCount = 1 ∧
         (l.foldl firstPassStep acc).st.bestCost = c.baseCost ∧
         slot0best (l.foldl firstPassStep acc).st = c.stream)) := by
  induction l with
  | nil =>
    intro acc _
    constructor
    · intro h0
      exact ⟨fun _ => h0, fun c hc => by cases hc⟩
    · intro b h1 h2 h3 c hc
      injection hc with hc
      subst hc
      exact ⟨h1, h2, h3⟩
  | cons i rest ih =>
    intro acc hlen
    by_cases hu : i.used = true
    · have hstep : firstPassStep acc i = acc := firstPassStep_used acc i hu
      have hcand : ¬(i.used = false ∧ i.isIndependent = true) := by simp [hu]
      constructor
      · intro h0
        constructor
        · intro hnone
          simp only [seedChoice, if_neg hcand] at hnone
          rw [List.foldl_cons, hstep]
          exact ((ih acc hlen).1 h0).1 hnone
        · intro c hc
          simp only [seedChoice, if_neg hcand] at hc
          rw [List.foldl_cons, hstep]
          exact ((ih acc hlen).1 h0).2 c hc
      · intro b h1 h2 h3 c hc
        simp only [seedChoice, if_neg hcand] at hc
        rw [List.foldl_cons, hstep]
        exact (ih acc hlen).2 b h1 h2 h3 c hc
    · have hu2 : i.used = false := by simpa using hu
      have hchar := firstPassStep_char acc i hu2
      have hlen2 : 0 < (firstPassStep acc i).st.joinedStreams.length := by
        rw [firstPassStep_joined_length]; exact hlen
      constructor
      · intro h0
        by_cases hind : i.isIndependent = true
        · -- candidate, acc empty: becomes the seed
          have hcand : i.used = false ∧ i.isIndependent = true := ⟨hu2, hind⟩
          have hg : i.isIndependent = true ∧
              (acc.st.bestCount = 0 ∨ i.baseCost < acc.st.bestCost) :=
            ⟨hind, Or.inl h0⟩
          rw [if_pos hg] at hchar
          obtain ⟨hc1, hc2, hc3⟩ := hchar
          have hs0 : slot0best (firstPassStep acc i).st = i.stream := by
            unfold slot0best
            rw [hc3]
            exact slot0best_setSlotBest i.stream acc.st.joinedStreams hlen
          constructor
          · intro hnone
            simp only [seedChoice, if_pos hcand] at hnone
            obtain ⟨c, hcres⟩ := seedChoice_some_isSome rest i
            rw [hcres] at hnone
            cases hnone
          · intro c hc
            simp only [seedChoice, if_pos hcand] at hc
            rw [List.foldl_cons]
            exact (ih (firstPassStep acc i) hlen2).2 i hc1 hc2 hs0 c hc
        · -- not a candidate: state best fields unchanged
          have hcand : ¬(i.used = false ∧ i.isIndependent = true) := by
            intro hx; exact hind hx.2
          have hg : ¬(i.isIndependent = true ∧
              (acc.st.bestCount = 0 ∨ i.baseCost < acc.st.bestCost)) := by
            intro hx; exact hind hx.1
          rw [if_neg hg] at hchar
          obtain ⟨hc1, hc2, hc3⟩ := hchar
          have hs0 : slot0best (firstPassStep acc i).st = slot0best acc.st := by
            unfold slot0best; rw [hc3]
          constructor
          · intro hnone
            simp only [seedChoice, if_neg hcand] at hnone
            rw [List.foldl_cons]
            exact ((ih (firstPassStep acc i) hlen2).1 (hc1.trans h0)).1 hnone
          · intro c hc
            simp only [seedChoice, if_neg hcand] at hc
            rw [List.foldl_cons]
            exact ((ih (firstPassStep acc i) hlen2).1 (hc1.trans h0)).2 c hc
      · intro b h1 h2 h3 c hc
        by_cases hind : i.isIndependent = true
        · have hcand : i.used = false ∧ i.isIndependent = true := ⟨hu2, hind⟩
          simp only [seedChoice, if_pos hcand] at hc
          by_cases hcost : i.baseCost < b.baseCost
          · rw [if_pos hcost] at hc
            have hg : i.isIndependent = true ∧
                (acc.st.bestCount = 0 ∨ i.baseCost < acc.st.bestCost) :=
              ⟨hind, Or.inr (by rw [h2]; exact hcost)⟩
            rw [if_pos hg] at hchar
            obtain ⟨hc1, hc2, hc3⟩ := hchar
            have hs0 : slot0best (firstPassStep acc i).st = i.stream := by
              unfold slot0best
              rw [hc3]
              exact slot0best_setSlotBest i.stream acc.st.joinedStreams hlen
            rw [List.foldl_cons]
            exact (ih (firstPassStep acc i) hlen2).2 i hc1 hc2 hs0 c hc
          · rw [if_neg hcost] at hc
            have hg : ¬(i.isIndependent = true ∧
                (acc.st.bestCount = 0 ∨ i.baseCost < acc.st.bestCost)) := by
              rintro ⟨-, h | h⟩
              · omega
              · rw [h2] at h; exact hcost h
            rw [if_neg hg] at hchar
            obtain ⟨hc1, hc2, hc3⟩ := hchar
            have hs0 : slot0best (firstPassStep acc i).st = slot0best acc.st := by
              unfold slot0best; rw [hc3]
            rw [List.foldl_cons]
            exact (ih (firstPassStep acc i) hlen2).2 b (hc1.trans h1) (hc2.trans h2)
              (hs0.trans h3) c hc
        · have hcand : ¬(i.used = false ∧ i.isIndependent = true) := by
            intro hx; exact hind hx.2
          simp only [seedChoice, if_neg hcand] at hc
          have hg : ¬(i.isIndependent = true ∧
              (acc.st.bestCount = 0 ∨ i.baseCost < acc.st.bestCost)) := by
            intro hx; exact hind hx.1
          rw [if_neg hg] at hchar
          obtain ⟨hc1, hc2, hc3⟩ := hchar
          have hs0 : slot0best (firstPassStep acc i).st = slot0best acc.st := by
            unfold slot0best; rw [hc3]
          rw [List.foldl_cons]
          exact (ih (firstPassStep acc i) hlen2).2 b (hc1.trans h1) (hc2.trans h2)
            (hs0.trans h3) c hc

theorem firstPass_inner (st : SearchState) :
    (firstPass st).st.innerStreams = st.innerStreams := by
  unfold firstPass
  rw [firstPassFold_inner]

theorem firstPass_active (st : SearchState) :
    (firstPass st).st.active = st.active := by
  unfold firstPass
  rw [firstPassFold_active]

theorem firstPass_joined_length (st : SearchState) :
    (firstPass st).st.joinedStreams.length = st.joinedStreams.length := by
  unfold firstPass
  rw [firstPassFold_joined_length]

theorem firstPass_remaining (st : SearchState) :
    (firstPass st).st.remainingStreams = unusedCount st.innerStreams := by
  unfold firstPass
  rw [firstPassFold_remaining]
  simp

theorem firstPass_best_none (st : SearchState) (hlen : 0 < st.joinedStreams.length)
    (h : seedChoice none st.innerStreams = none) :
    (firstPass st).st.bestCount = 0 := by
  unfold firstPass
  exact ((firstPassFold_best st.innerStreams _ (by simpa using hlen)).1 rfl).1 h

theorem firstPass_best_some (st : SearchState) (hlen : 0 < st.joinedStreams.length)
    (c : StreamInfo) (h : seedChoice none st.innerStreams = some c) :
    (firstPass st).st.bestCount = 1 ∧
    (firstPass st).st.bestCost = c.baseCost ∧
    slot0best (firstPass st).st = c.stream := by
  unfold firstPass
  exact ((firstPassFold_best st.innerStreams _ (by simpa using hlen)).1 rfl).2 c h

/-! Small structural helpers for the `findJoinOrder`-level proofs. -/

theorem pathOf_zero (st : SearchState) : pathOf st 0 = [] := rfl

theorem PathOK_zero (st : SearchState) : PathOK st 0 :=
  ⟨by rw [pathOf_zero]; exact List.nodup_nil, by rw [pathOf_zero]; intro id h; cases h⟩

theorem bestSlotsOf_of_count_zero (st : SearchState) (h : st.bestCount = 0) :
    bestSlotsOf st = [] := by
  unfold bestSlotsOf
  rw [h]
  rfl

theorem BestOK_of_count_zero (st : SearchState) (h : st.bestCount = 0) : BestOK st := by
  refine ⟨?_, ?_, ?_⟩
  · rw [bestSlotsOf_of_count_zero st h]; exact List.nodup_nil
  · omega
  · rw [bestSlotsOf_of_count_zero st h]; intro id hid; cases hid

theorem connectedOrder_nil (streams : List StreamInfo) :
    connectedOrder streams [] := by
  intro k hk _
  simp at hk

theorem connectedOrder_singleton (streams : List StreamInfo) (a : Nat) :
    connectedOrder streams [a] := by
  intro k hk hk0
  simp at hk
  omega

theorem descendTarget_of_plan (P : Params) (st3 : SearchState) (info : StreamInfo)
    (pl : List IndexRelationship) (done : Bool) (h : P.plan = true) :
    descendTarget P st3 info pl done = none := by
  unfold descendTarget
  rw [if_neg]
  rintro ⟨-, h2⟩
  rw [h] at h2
  cases h2

/-! The mark-as-used loop at the end of `findJoinOrder`. -/

/-- Marking a list of stream numbers used, one after the other. -/
def markMany (ids : List Nat) (l : List StreamInfo) : List StreamInfo :=
  ids.foldl (fun acc id => markUsedById id acc) l

theorem idsOf_markUsedById (id : Nat) :
    ∀ l, idsOf (markUsedById id l) = idsOf l := by
  intro l
  induction l with
  | nil => rfl
  | cons s ss ih =>
    simp only [markUsedById]
    split
    · rfl
    · simp only [idsOf, List.map_cons]
      rw [← idsOf, ← idsOf, ih]

theorem idsOf_cons (s : StreamInfo) (ss : List StreamInfo) :
    idsOf (s :: ss) = s.stream :: idsOf ss := rfl

theorem usedIdsOf_cons_true (s : StreamInfo) (ss : List StreamInfo) (h : s.used = true) :
    usedIdsOf (s :: ss) = s.stream :: usedIdsOf ss := by
  simp [usedIdsOf, List.filter_cons, h]

theorem usedIdsOf_cons_false (s : StreamInfo) (ss : List StreamInfo)
    (h : s.used = false) : usedIdsOf (s :: ss) = usedIdsOf ss := by
  simp [usedIdsOf, List.filter_cons, h]

theorem usedIds_markUsedById (id id' : Nat) :
    ∀ l, id' ∈ usedIdsOf (markUsedById id l) ↔
      id' ∈ usedIdsOf l ∨ (id' = id ∧ id' ∈ idsOf l) := by
  intro l
  induction l with
  | nil => simp [markUsedById, usedIdsOf, idsOf]
  | cons s ss ih =>
    by_cases hb : (s.stream == id) = true
    · have hs : s.stream = id := by simpa using hb
      have hm : markUsedById id (s :: ss) = { s with used := true } :: ss := by
        simp only [markUsedById, if_pos hb]
      rw [hm, usedIdsOf_cons_true _ _ rfl]
      have hx : ({ s with used := true } : StreamInfo).stream = s.stream := rfl
      rw [hx, idsOf_cons, List.mem_cons]
      cases hu : s.used
      · rw [usedIdsOf_cons_false _ _ hu]
        constructor
        · rintro (h | h)
          · exact Or.inr ⟨h.trans hs, List.mem_cons.mpr (Or.inl h)⟩
          · exact Or.inl h
        · rintro (h | ⟨h1, _⟩)
          · exact Or.inr h
          · exact Or.inl (h1.trans hs.symm)
      · rw [usedIdsOf_cons_true _ _ hu, List.mem_cons]
        constructor
        · exact Or.inl
        · rintro ((h | h) | ⟨h1, _⟩)
          · exact Or.inl h
          · exact Or.inr h
          · exact Or.inl (h1.trans hs.symm)
    · have hs : ¬s.stream = id := by simpa using hb
      have hm : markUsedById id (s :: ss) = s :: markUsedById id ss := by
        simp only [markUsedById, if_neg hb]
      rw [hm, idsOf_cons]
      cases hu : s.used
      · rw [usedIdsOf_cons_false _ _ hu, usedIdsOf_cons_false _ _ hu, ih]
        constructor
        · rintro (h | ⟨h1, h2⟩)
          · exact Or.inl h
          · exact Or.inr ⟨h1, List.mem_cons_of_mem _ h2⟩
        · rintro (h | ⟨h1, h2⟩)
          · exact Or.inl h
          · rcases List.mem_cons.mp h2 with h2 | h2
            · exact absurd (h2.symm.trans h1) hs
            · exact Or.inr ⟨h1, h2⟩
      · rw [usedIdsOf_cons_true _ _ hu, usedIdsOf_cons_true _ _ hu,
          List.mem_cons, List.mem_cons]
        constructor
        · rintro (h | h)
          · exact Or.inl (Or.inl h)
          · rcases ih.mp h with h | ⟨h1, h2⟩
            · exact Or.inl (Or.inr h)
            · exact Or.inr ⟨h1, List.mem_cons_of_mem _ h2⟩
        · rintro ((h | h) | ⟨h1, h2⟩)
          · exact Or.inl h
          · exact Or.inr (ih.mpr (Or.inl h))
          · rcases List.mem_cons.mp h2 with h2 | h2
            · exact absurd (h2.symm.trans h1) hs
            · exact Or.inr (ih.mpr (Or.inr ⟨h1, h2⟩))

theorem idsOf_markMany (ids : List Nat) :
    ∀ l, idsOf (markMany ids l) = idsOf l := by
  induction ids with
  | nil => intro l; rfl
  | cons id rest ih =>
    intro l
    show idsOf (markMany rest (markUsedById id l)) = idsOf l
    rw [ih, idsOf_markUsedById]

theorem usedIds_markMany (ids : List Nat) (id' : Nat) :
    ∀ l, id' ∈ usedIdsOf (markMany ids l) ↔
      id' ∈ usedIdsOf l ∨ (id' ∈ ids ∧ id' ∈ idsOf l) := by
  induction ids with
  | nil =>
    intro l
    simp [markMany]
  | cons id rest ih =>
    intro l
    show id' ∈ usedIdsOf (markMany rest (markUsedById id l)) ↔ _
    rw [ih, usedIds_markUsedById, idsOf_markUsedById]
    constructor
    · rintro ((h | ⟨h1, h2⟩) | ⟨h1, h2⟩)
      · exact Or.inl h
      · exact Or.inr ⟨by simp [h1], h2⟩
      · exact Or.inr ⟨List.mem_cons_of_mem _ h1, h2⟩
    · rintro (h | ⟨h1, h2⟩)
      · exact Or.inl (Or.inl h)
      · rcases List.mem_cons.mp h1 with h1 | h1
        · exact Or.inl (Or.inr ⟨h1, h2⟩)
        · exact Or.inr ⟨h1, h2⟩

theorem markBestFold_joined (acc : SearchState × List Nat) (i : Nat) :
    (markBestFold acc i).1.joinedStreams = acc.1.joinedStreams := rfl

theorem markBestFold_bestCount (acc : SearchState × List Nat) (i : Nat) :
    (markBestFold acc i).1.bestCount = acc.1.bestCount := rfl

theorem markBestFold_remaining (acc : SearchState × List Nat) (i : Nat) :
    (markBestFold acc i).1.remainingStreams = acc.1.remainingStreams := rfl

theorem markMany_append_one (ids : List Nat) (id : Nat) (l : List StreamInfo) :
    markMany (ids ++ [id]) l = markUsedById id (markMany ids l) := by
  unfold markMany
  rw [List.foldl_append]
  rfl

theorem markBest_loop_spec (n : Nat) :
    ∀ (st : SearchState) (out : List Nat), n ≤ st.joinedStreams.length →
    ((List.range n).foldl markBestFold (st, out)).1.joinedStreams = st.joinedStreams ∧
    ((List.range n).foldl markBestFold (st, out)).1.bestCount = st.bestCount ∧
    ((List.range n).foldl markBestFold (st, out)).1.remainingStreams
      = st.remainingStreams ∧
    ((List.range n).foldl markBestFold (st, out)).2
      = out ++ (st.joinedStreams.map (·.bestStream)).take n ∧
    ((List.range n).foldl markBestFold (st, out)).1.innerStreams
      = markMany ((st.joinedStreams.map (·.bestStream)).take n) st.innerStreams := by
  induction n with
  | zero =>
    intro st out _
    refine ⟨rfl, rfl, rfl, by simp, rfl⟩
  | succ n ih =>
    intro st out hn
    obtain ⟨hj, hbc, hr, ho, hi⟩ := ih st out (by omega)
    have hnlt : n < st.joinedStreams.length := by omega
    have hnlt2 : n < (st.joinedStreams.map (·.bestStream)).length := by
      rw [List.length_map]; exact hnlt
    rw [List.range_succ, List.foldl_append, List.foldl_cons, List.foldl_nil]
    have hid : ((((List.range n).foldl markBestFold
          (st, out)).1.joinedStreams.getD n default).bestStream)
        = (st.joinedStreams.map (·.bestStream)).getD n 0 := by
      rw [hj, List.getD_eq_getElem _ _ hnlt, List.getD_eq_getElem _ _ hnlt2,
        List.getElem_map]
    have htake : (st.joinedStreams.map (·.bestStream)).take (n + 1)
        = (st.joinedStreams.map (·.bestStream)).take n
          ++ [(st.joinedStreams.map (·.bestStream)).getD n 0] := by
      rw [List.take_succ, List.getElem?_eq_getElem hnlt2,
        List.getD_eq_getElem _ _ hnlt2]
      rfl
    refine ⟨?_, ?_, ?_, ?_, ?_⟩
    · rw [markBestFold_joined, hj]
    · rw [markBestFold_bestCount, hbc]
    · rw [markBestFold_remaining, hr]
    · show ((List.range n).foldl markBestFold (st, out)).2 ++ [_] = _
      rw [ho, hid, htake, List.append_assoc]
    · show markUsedById _ ((List.range n).foldl markBestFold (st, out)).1.innerStreams = _
      rw [hi, hid, htake, markMany_append_one]

/-! Behaviour of the seed loop of `findJoinOrder`. -/

theorem seedLoopStep_stop (P : Params) (f n : Nat) (acc : SeedLoopAcc) (idx : Nat)
    (h : acc.stopFlag = true) : seedLoopStep P f n acc idx = acc := by
  simp [seedLoopStep, h]

theorem seedLoopStep_used (P : Params) (f n : Nat) (acc : SeedLoopAcc) (idx : Nat)
    (h2 : acc.stopFlag = false)
    (hu : (acc.st.innerStreams.getD idx default).used = true) :
    seedLoopStep P f n acc idx = acc := by
  simp only [seedLoopStep, h2, Bool.false_eq_true, if_false]
  rw [if_pos hu]

theorem seedLoopStep_skip (P : Params) (f n : Nat) (acc : SeedLoopAcc) (idx : Nat)
    (h2 : acc.stopFlag = false)
    (hu : (acc.st.innerStreams.getD idx default).used = false)
    (hg : ¬(P.favorFirstRows = false ∨ n = 0 ∨
      ((acc.st.innerStreams.getD idx default).baseNavigated = true ∧
       (if (acc.st.innerStreams.getD idx default).isFiltered then 1 else 0) = f))) :
    seedLoopStep P f n acc idx = acc := by
  simp only [seedLoopStep, h2, Bool.false_eq_true, if_false, hu]
  rw [if_neg hg]

theorem seedLoopStep_run (P : Params) (f n : Nat) (acc : SeedLoopAcc) (idx : Nat)
    (h2 : acc.stopFlag = false)
    (hu : (acc.st.innerStreams.getD idx default).used = false)
    (hg : P.favorFirstRows = false ∨ n = 0 ∨
      ((acc.st.innerStreams.getD idx default).baseNavigated = true ∧
       (if (acc.st.innerStreams.getD idx default).isFiltered then 1 else 0) = f)) :
    seedLoopStep P f n acc idx =
      ⟨(findBestOrder P acc.st.innerStreams.length 0 idx [] 0 1 acc.st).1,
       acc.tried ++ [idx],
       acc.fullCosts ++ (findBestOrder P acc.st.innerStreams.length 0 idx [] 0 1 acc.st).2,
       P.plan⟩ := by
  simp only [seedLoopStep, h2, Bool.false_eq_true, if_false, hu]
  rw [if_pos hg]

theorem seedLoopFold_allUsed (P : Params) (f n : Nat) (l : List Nat) :
    ∀ acc : SeedLoopAcc, (∀ i ∈ acc.st.innerStreams, i.used = true) →
      (∀ idx ∈ l, idx < acc.st.innerStreams.length) →
      l.foldl (seedLoopStep P f n) acc = acc := by
  induction l with
  | nil => intro acc _ _; rfl
  | cons x xs ih =>
    intro acc hall hb
    have hstep : seedLoopStep P f n acc x = acc := by
      cases hf : acc.stopFlag
      · exact seedLoopStep_used P f n acc x hf
          (hall _ (getD_mem _ _ (hb x (List.mem_cons_self x xs))))
      · exact seedLoopStep_stop P f n acc x hf
    rw [List.foldl_cons, hstep]
    exact ih acc hall (fun idx hidx => hb idx (List.mem_cons_of_mem _ hidx))

theorem seedLoopFold_bestOK (P : Params) (f n : Nat) (l : List Nat) :
    ∀ acc : SeedLoopAcc,
      (idsOf acc.st.innerStreams).Nodup →
      unusedCount acc.st.innerStreams = acc.st.remainingStreams →
      acc.st.remainingStreams ≤ acc.st.joinedStreams.length →
      (∀ idx ∈ l, idx < acc.st.innerStreams.length) →
      BestOK acc.st →
      (l.foldl (seedLoopStep P f n) acc).st.innerStreams = acc.st.innerStreams ∧
      (l.foldl (seedLoopStep P f n) acc).st.remainingStreams
        = acc.st.remainingStreams ∧
      (l.foldl (seedLoopStep P f n) acc).st.joinedStreams.length
        = acc.st.joinedStreams.length ∧
      BestOK (l.foldl (seedLoopStep P f n) acc).st := by
  induction l with
  | nil => intro acc _ _ _ _ hok; exact ⟨rfl, rfl, rfl, hok⟩
  | cons x xs ih =>
    intro acc hnd hcnt hrem hb hok
    rw [List.foldl_cons]
    have htail : ∀ idx ∈ xs, idx < acc.st.innerStreams.length :=
      fun idx hidx => hb idx (List.mem_cons_of_mem _ hidx)
    have hxlt : x < acc.st.innerStreams.length := hb x (List.mem_cons_self x xs)
    by_cases hf : acc.stopFlag = true
    · rw [seedLoopStep_stop P f n acc x hf]
      exact ih acc hnd hcnt hrem htail hok
    · have hf2 : acc.stopFlag = false := by simpa using hf
      by_cases hu : (acc.st.innerStreams.getD x default).used = true
      · rw [seedLoopStep_used P f n acc x hf2 hu]
        exact ih acc hnd hcnt hrem htail hok
      · have hu2 : (acc.st.innerStreams.getD x default).used = false := by
          simpa using hu
        by_cases hg : P.favorFirstRows = false ∨ n = 0 ∨
            ((acc.st.innerStreams.getD x default).baseNavigated = true ∧
             (if (acc.st.innerStreams.getD x default).isFiltered then 1 else 0) = f)
        · rw [seedLoopStep_run P f n acc x hf2 hu2 hg]
          have hM := findBestOrder_master P acc.st.innerStreams.length 0 x [] 0 1
            acc.st hnd hxlt hu2 (by omega) hrem (PathOK_zero acc.st) hok
          have hsi := findBestOrder_innerStreams P acc.st.innerStreams.length 0 x
            [] 0 1 acc.st
          have hsr := findBestOrder_remaining P acc.st.innerStreams.length 0 x
            [] 0 1 acc.st
          have hsl := findBestOrder_joined_length P acc.st.innerStreams.length 0 x
            [] 0 1 acc.st
          obtain ⟨h1, h2, h3, h4⟩ := ih
            ⟨(findBestOrder P acc.st.innerStreams.length 0 x [] 0 1 acc.st).1,
             acc.tried ++ [x],
             acc.fullCosts
               ++ (findBestOrder P acc.st.innerStreams.length 0 x [] 0 1 acc.st).2,
             P.plan⟩
            (by rw [hsi]; exact hnd) (by rw [hsi, hsr]; exact hcnt)
            (by rw [hsr, hsl]; exact hrem) (by rw [hsi]; exact htail) hM.1
          exact ⟨h1.trans hsi, h2.trans hsr, h3.trans hsl, h4⟩
        · rw [seedLoopStep_skip P f n acc x hf2 hu2 hg]
          exact ih acc hnd hcnt hrem htail hok

theorem seedLoopFold_conn (P : Params) (hplan : P.plan = false) (f n : Nat)
    (l : List Nat) :
    ∀ acc : SeedLoopAcc,
      (idsOf acc.st.innerStreams).Nodup →
      unusedCount acc.st.innerStreams = acc.st.remainingStreams →
      acc.st.remainingStreams ≤ acc.st.joinedStreams.length →
      (∀ idx ∈ l, idx < acc.st.innerStreams.length) →
      connectedOrder acc.st.innerStreams (bestSlotsOf acc.st) →
      connectedOrder acc.st.innerStreams
        (bestSlotsOf (l.foldl (seedLoopStep P f n) acc).st) := by
  induction l with
  | nil => intro acc _ _ _ _ hc; exact hc
  | cons x xs ih =>
    intro acc hnd hcnt hrem hb hc
    rw [List.foldl_cons]
    have htail : ∀ idx ∈ xs, idx < acc.st.innerStreams.length :=
      fun idx hidx => hb idx (List.mem_cons_of_mem _ hidx)
    have hxlt : x < acc.st.innerStreams.length := hb x (List.mem_cons_self x xs)
    by_cases hf : acc.stopFlag = true
    · rw [seedLoopStep_stop P f n acc x hf]
      exact ih acc hnd hcnt hrem htail hc
    · have hf2 : acc.stopFlag = false := by simpa using hf
      by_cases hu : (acc.st.innerStreams.getD x default).used = true
      · rw [seedLoopStep_used P f n acc x hf2 hu]
        exact ih acc hnd hcnt hrem htail hc
      · have hu2 : (acc.st.innerStreams.getD x default).used = false := by
          simpa using hu
        by_cases hg : P.favorFirstRows = false ∨ n = 0 ∨
            ((acc.st.innerStreams.getD x default).baseNavigated = true ∧
             (if (acc.st.innerStreams.getD x default).isFiltered then 1 else 0) = f)
        · rw [seedLoopStep_run P f n acc x hf2 hu2 hg]
          have hconn := findBestOrder_conn P hplan acc.st.innerStreams.length 0 x
            [] 0 1 acc.st hnd hxlt hu2 (by omega) hrem
            (by rw [pathOf_zero]; exact connectedOrder_nil _)
            (Or.inl rfl) (fun e he => absurd he (List.not_mem_nil e)) hc
          have hsi := findBestOrder_innerStreams P acc.st.innerStreams.length 0 x
            [] 0 1 acc.st
          have hsr := findBestOrder_remaining P acc.st.innerStreams.length 0 x
            [] 0 1 acc.st
          have hsl := findBestOrder_joined_length P acc.st.innerStreams.length 0 x
            [] 0 1 acc.st
          have h := ih
            ⟨(findBestOrder P acc.st.innerStreams.length 0 x [] 0 1 acc.st).1,
             acc.tried ++ [x],
             acc.fullCosts
               ++ (findBestOrder P acc.st.innerStreams.length 0 x [] 0 1 acc.st).2,
             P.plan⟩
            (by rw [hsi]; exact hnd) (by rw [hsi, hsr]; exact hcnt)
            (by rw [hsr, hsl]; exact hrem) (by rw [hsi]; exact htail)
            (by rw [hsi]; exact hconn)
          rw [hsi] at h
          exact h
        · rw [seedLoopStep_skip P f n acc x hf2 hu2 hg]
          exact ih acc hnd hcnt hrem htail hc

/-- The guard of the seed loop with the final first-pass counter totals, as the code
evaluates it (InnerJoin.cpp lines 222-238). -/
def seedGuard (P : Params) (f n : Nat) (S : List StreamInfo) (idx : Nat) : Prop :=
  (S.getD idx default).used = false ∧
    (P.favorFirstRows = false ∨ n = 0 ∨
      ((S.getD idx default).baseNavigated = true ∧
       (if (S.getD idx default).isFiltered then 1 else 0) = f))

instance (P : Params) (f n : Nat) (S : List StreamInfo) (idx : Nat) :
    Decidable (seedGuard P f n S idx) :=
  inferInstanceAs (Decidable (_ ∧ _))

theorem seedLoopFold_tried (P : Params) (hplan : P.plan = false) (f n : Nat)
    (S : List StreamInfo) (l : List Nat) :
    ∀ acc : SeedLoopAcc, acc.stopFlag = false → acc.st.innerStreams = S →
      (l.foldl (seedLoopStep P f n) acc).stopFlag = false ∧
      (l.foldl (seedLoopStep P f n) acc).st.innerStreams = S ∧
      (l.foldl (seedLoopStep P f n) acc).tried
        = acc.tried ++ l.filter (fun idx => decide (seedGuard P f n S idx)) := by
  induction l with
  | nil => intro acc hf hS; exact ⟨hf, hS, by simp⟩
  | cons x xs ih =>
    intro acc hf hS
    rw [List.foldl_cons, List.filter_cons]
    by_cases hu : (acc.st.innerStreams.getD x default).used = true
    · have hguard : ¬seedGuard P f n S x := by
        intro hg
        rw [← hS] at hg
        rw [hg.1] at hu
        cases hu
      rw [seedLoopStep_used P f n acc x hf hu]
      rw [decide_eq_false hguard]
      exact ih acc hf hS
    · have hu2 : (acc.st.innerStreams.getD x default).used = false := by simpa using hu
      by_cases hg : P.favorFirstRows = false ∨ n = 0 ∨
          ((acc.st.innerStreams.getD x default).baseNavigated = true ∧
           (if (acc.st.innerStreams.getD x default).isFiltered then 1 else 0) = f)
      · have hguard : seedGuard P f n S x := by
          rw [← hS]
          exact ⟨hu2, hg⟩
        rw [seedLoopStep_run P f n acc x hf hu2 hg]
        rw [decide_eq_true hguard]
        have hsi := findBestOrder_innerStreams P acc.st.innerStreams.length 0 x
          [] 0 1 acc.st
        obtain ⟨h1, h2, h3⟩ := ih
          ⟨(findBestOrder P acc.st.innerStreams.length 0 x [] 0 1 acc.st).1,
           acc.tried ++ [x],
           acc.fullCosts
             ++ (findBestOrder P acc.st.innerStreams.length 0 x [] 0 1 acc.st).2,
           P.plan⟩ hplan (hsi.trans hS)
        refine ⟨h1, h2, ?_⟩
        rw [h3]
        simp
      · have hguard : ¬seedGuard P f n S x := by
          intro hgg
          rw [← hS] at hgg
          exact hg hgg.2
        rw [seedLoopStep_skip P f n acc x hf hu2 hg]
        rw [decide_eq_false hguard]
        exact ih acc hf hS

theorem firstPassFold_allUsed (l : List StreamInfo) :
    ∀ acc : FirstPassAcc, (∀ i ∈ l, i.used = true) →
      l.foldl firstPassStep acc = acc := by
  induction l with
  | nil => intro acc _; rfl
  | cons i rest ih =>
    intro acc hall
    rw [List.foldl_cons,
      firstPassStep_used acc i (hall i (List.mem_cons_self i rest))]
    exact ih acc (fun j hj => hall j (List.mem_cons_of_mem _ hj))

/-! Assembly of the `findJoinOrder` postconditions. -/

theorem firstPassFold_no_candidates (l : List StreamInfo) :
    ∀ acc : FirstPassAcc, seedCandidates l = [] →
      (l.foldl firstPassStep acc).st.bestCount = acc.st.bestCount := by
  induction l with
  | nil => intro acc _; rfl
  | cons i rest ih =>
    intro acc hc
    by_cases hcand : i.used = false ∧ i.isIndependent = true
    · rw [seedCandidates_cons_pos hcand] at hc
      cases hc
    · rw [seedCandidates_cons_neg hcand] at hc
      rw [List.foldl_cons]
      cases hu : i.used
      · have hind : ¬i.isIndependent = true := fun h => hcand ⟨hu, h⟩
        have hchar := firstPassStep_char acc i hu
        rw [if_neg (fun hx => hind hx.1)] at hchar
        rw [ih _ hc, hchar.1]
      · rw [firstPassStep_used acc i hu]
        exact ih acc hc

theorem firstPass_bestCount_of_no_candidates (st : SearchState)
    (h : seedCandidates st.innerStreams = []) : (firstPass st).st.bestCount = 0 := by
  unfold firstPass
  rw [firstPassFold_no_candidates st.innerStreams _ h]

/-- The tail of `findJoinOrder` after the seed phase (InnerJoin.cpp lines 246-261):
read off the best order, mark its streams used, and report success. -/
def joinOrderTail (acc : SeedLoopAcc) : JoinOrderResult :=
  let m := (List.range acc.st.bestCount).foldl markBestFold (acc.st, [])
  ⟨m.1, m.2, acc.tried, acc.fullCosts, !m.2.isEmpty⟩

theorem findJoinOrder_acc_pos (P : Params) (st : SearchState)
    (h0 : (firstPass st).st.bestCount = 0) :
    findJoinOrder P st = joinOrderTail
      (seedLoop P (firstPass st).filters (firstPass st).navigations (firstPass st).st) := by
  simp only [findJoinOrder, joinOrderTail]
  rw [if_pos h0]

theorem findJoinOrder_acc_neg (P : Params) (st : SearchState)
    (h0 : ¬(firstPass st).st.bestCount = 0) :
    findJoinOrder P st = joinOrderTail ⟨(firstPass st).st, [], [], false⟩ := by
  simp only [findJoinOrder, joinOrderTail]
  rw [if_neg h0]

theorem joinOrderTail_state (acc : SeedLoopAcc) :
    (joinOrderTail acc).state
      = ((List.range acc.st.bestCount).foldl markBestFold (acc.st, [])).1 := rfl

theorem joinOrderTail_best (acc : SeedLoopAcc) :
    (joinOrderTail acc).bestStreams
      = ((List.range acc.st.bestCount).foldl markBestFold (acc.st, [])).2 := rfl

theorem joinOrderTail_result (acc : SeedLoopAcc) :
    (joinOrderTail acc).result
      = !((List.range acc.st.bestCount).foldl markBestFold (acc.st, [])).2.isEmpty := rfl

theorem joinOrderTail_spec (acc : SeedLoopAcc)
    (hn : acc.st.bestCount ≤ acc.st.joinedStreams.length) :
    (joinOrderTail acc).bestStreams = bestSlotsOf acc.st ∧
    (joinOrderTail acc).state.innerStreams
      = markMany (bestSlotsOf acc.st) acc.st.innerStreams ∧
    (joinOrderTail acc).state.remainingStreams = acc.st.remainingStreams ∧
    (joinOrderTail acc).result = !(bestSlotsOf acc.st).isEmpty ∧
    (joinOrderTail acc).tried = acc.tried ∧
    (joinOrderTail acc).fullCosts = acc.fullCosts := by
  obtain ⟨hj, hbc, hr, ho, hi⟩ := markBest_loop_spec acc.st.bestCount acc.st [] hn
  have hbs : ((List.range acc.st.bestCount).foldl markBestFold (acc.st, [])).2
      = bestSlotsOf acc.st := by
    rw [ho]
    simp [bestSlotsOf]
  refine ⟨?_, ?_, ?_, ?_, rfl, rfl⟩
  · rw [joinOrderTail_best, hbs]
  · rw [joinOrderTail_state, hi]
    simp [bestSlotsOf]
  · rw [joinOrderTail_state, hr]
  · rw [joinOrderTail_result, hbs]

theorem bestSlotsOf_count_one (A : SearchState) (h : A.bestCount = 1)
    (hlen : 0 < A.joinedStreams.length) :
    bestSlotsOf A = [slot0best A] := by
  unfold bestSlotsOf slot0best
  rw [h]
  cases hj : A.joinedStreams with
  | nil => rw [hj] at hlen; cases hlen
  | cons a as => simp

theorem mem_seedCandidates (l : List StreamInfo) (c : StreamInfo)
    (h : c ∈ seedCandidates l) :
    c ∈ l ∧ c.used = false ∧ c.isIndependent = true := by
  unfold seedCandidates at h
  have h2 := List.mem_filter.mp h
  have h3 : c.used = false ∧ c.isIndependent = true := by
    have h4 := h2.2
    simp only [Bool.and_eq_true, Bool.not_eq_true'] at h4
    exact h4
  exact ⟨h2.1, h3.1, h3.2⟩

theorem unusedCount_pos_of_mem (l : List StreamInfo) (c : StreamInfo)
    (hc : c ∈ l) (hu : c.used = false) : 0 < unusedCount l := by
  unfold unusedCount
  have : c ∈ l.filter (fun s => !s.used) :=
    List.mem_filter.mpr ⟨hc, by simp [hu]⟩
  exact List.length_pos.mpr (List.ne_nil_of_mem this)

theorem findJoinOrder_core (P : Params) (st : SearchState)
    (hnd : (idsOf st.innerStreams).Nodup)
    (hrem : unusedCount st.innerStreams ≤ st.joinedStreams.length) :
    ∃ A : SearchState,
      A.innerStreams = st.innerStreams ∧
      A.remainingStreams = unusedCount st.innerStreams ∧
      A.joinedStreams.length = st.joinedStreams.length ∧
      BestOK A ∧
      (P.plan = false → connectedOrder st.innerStreams (bestSlotsOf A)) ∧
      (findJoinOrder P st).bestStreams = bestSlotsOf A ∧
      (findJoinOrder P st).state.innerStreams
        = markMany (bestSlotsOf A) st.innerStreams ∧
      (findJoinOrder P st).result = !(bestSlotsOf A).isEmpty := by
  have hfi := firstPass_inner st
  have hfr := firstPass_remaining st
  have hfl := firstPass_joined_length st
  by_cases hcand : seedCandidates st.innerStreams = []
  · -- no independent seed: the seed loop runs
    have h0 : (firstPass st).st.bestCount = 0 :=
      firstPass_bestCount_of_no_candidates st hcand
    have hbound : ∀ idx ∈ List.range (firstPass st).st.innerStreams.length,
        idx < (firstPass st).st.innerStreams.length :=
      fun idx hidx => List.mem_range.mp hidx
    obtain ⟨h1, h2, h3, h4⟩ := seedLoopFold_bestOK P (firstPass st).filters
      (firstPass st).navigations (List.range (firstPass st).st.innerStreams.length)
      ⟨(firstPass st).st, [], [], false⟩
      (by rw [hfi]; exact hnd)
      (by rw [hfi, hfr])
      (by rw [hfr, hfl]; exact hrem)
      hbound
      (BestOK_of_count_zero _ h0)
    have hAi : (seedLoop P (firstPass st).filters (firstPass st).navigations
        (firstPass st).st).st.innerStreams = st.innerStreams := h1.trans hfi
    have hAr : (seedLoop P (firstPass st).filters (firstPass st).navigations
        (firstPass st).st).st.remainingStreams = unusedCount st.innerStreams :=
      h2.trans hfr
    have hAl : (seedLoop P (firstPass st).filters (firstPass st).navigations
        (firstPass st).st).st.joinedStreams.length = st.joinedStreams.length :=
      h3.trans hfl
    have hAok : BestOK (seedLoop P (firstPass st).filters (firstPass st).navigations
        (firstPass st).st).st := h4
    have hble : (seedLoop P (firstPass st).filters (firstPass st).navigations
          (firstPass st).st).st.bestCount
        ≤ (seedLoop P (firstPass st).filters (firstPass st).navigations
          (firstPass st).st).st.joinedStreams.length := by
      have hx := hAok.le_remaining
      rw [hAr] at hx
      rw [hAl]
      omega
    refine ⟨(seedLoop P (firstPass st).filters (firstPass st).navigations
      (firstPass st).st).st, hAi, hAr, hAl, hAok, ?_, ?_, ?_, ?_⟩
    · intro hplan
      have hconn := seedLoopFold_conn P hplan (firstPass st).filters
        (firstPass st).navigations (List.range (firstPass st).st.innerStreams.length)
        ⟨(firstPass st).st, [], [], false⟩
        (by rw [hfi]; exact hnd)
        (by rw [hfi, hfr])
        (by rw [hfr, hfl]; exact hrem)
        hbound
        (by rw [bestSlotsOf_of_count_zero _ h0]; exact connectedOrder_nil _)
      show connectedOrder st.innerStreams _
      rw [← hfi]
      exact hconn
    · rw [findJoinOrder_acc_pos P st h0]
      exact (joinOrderTail_spec _ hble).1
    · rw [findJoinOrder_acc_pos P st h0]
      rw [(joinOrderTail_spec _ hble).2.1, hAi]
    · rw [findJoinOrder_acc_pos P st h0]
      exact (joinOrderTail_spec _ hble).2.2.2.1
  · -- an independent seed exists and short-circuits the search
    obtain ⟨c, hc⟩ := seedChoice_isSome_of_candidates st.innerStreams hcand
    obtain ⟨l1, l2, hsplit, _, _⟩ := seedChoice_none_spec st.innerStreams c hc
    have hcmem : c ∈ seedCandidates st.innerStreams := by
      rw [hsplit]
      exact List.mem_append.mpr (Or.inr (List.mem_cons_self c l2))
    obtain ⟨hcl, hcu, _⟩ := mem_seedCandidates st.innerStreams c hcmem
    have hu1 : 0 < unusedCount st.innerStreams :=
      unusedCount_pos_of_mem st.innerStreams c hcl hcu
    have hlen : 0 < st.joinedStreams.length := by omega
    obtain ⟨hb1, hb2, hb3⟩ := firstPass_best_some st hlen c hc
    have h0 : ¬(firstPass st).st.bestCount = 0 := by rw [hb1]; omega
    have hbs : bestSlotsOf (firstPass st).st = [c.stream] := by
      rw [bestSlotsOf_count_one _ hb1 (by rw [hfl]; exact hlen), hb3]
    refine ⟨(firstPass st).st, hfi, by rw [hfr], hfl, ?_, ?_, ?_, ?_, ?_⟩
    · refine ⟨?_, ?_, ?_⟩
      · rw [hbs]; exact List.nodup_singleton _
      · rw [hb1, hfr]; omega
      · rw [hbs, hfi]
        intro id hid
        rcases List.mem_cons.mp hid with hid | hid
        · subst hid
          exact List.mem_map.mpr ⟨c, hcl, rfl⟩
        · cases hid
    · intro _
      rw [hbs]
      exact connectedOrder_singleton _ _
    · rw [findJoinOrder_acc_neg P st h0]
      exact (joinOrderTail_spec _ (by rw [hb1, hfl]; exact hlen)).1
    · rw [findJoinOrder_acc_neg P st h0]
      have := (joinOrderTail_spec
        (⟨(firstPass st).st, [], [], false⟩ : SeedLoopAcc)
        (by rw [hb1, hfl]; exact hlen)).2.1
      rw [this, hfi]
    · rw [findJoinOrder_acc_neg P st h0]
      exact (joinOrderTail_spec _ (by rw [hb1, hfl]; exact hlen)).2.2.2.1

/-! Under a PLAN the oracle is never consulted: the whole computation is
independent of the cost estimates. -/

theorem searchStep_oracle_indep (fav : Bool) (o1 o2 : Oracle) (pos idx : Nat)
    (c k : ℚ) (st : SearchState) :
    searchStep ⟨true, fav, o2⟩ pos idx c k st
      = searchStep ⟨true, fav, o1⟩ pos idx c k st := rfl

theorem planTarget_oracle_indep (fav : Bool) (o1 o2 : Oracle) (st : SearchState) :
    planTarget ⟨true, fav, o2⟩ st = planTarget ⟨true, fav, o1⟩ st := rfl

theorem findBestOrder_oracle_indep (fav : Bool) (o1 o2 : Oracle) (fuel : Nat) :
    ∀ (pos idx : Nat) (pl : List IndexRelationship) (c k : ℚ) (st : SearchState),
      findBestOrder ⟨true, fav, o1⟩ fuel pos idx pl c k st
        = findBestOrder ⟨true, fav, o2⟩ fuel pos idx pl c k st := by
  induction fuel with
  | zero => intro pos idx pl c k st; rfl
  | succ n ih =>
    intro pos idx pl c k st
    have hd1 := descendTarget_of_plan (⟨true, fav, o1⟩ : Params)
      (searchStep ⟨true, fav, o1⟩ pos idx c k st).1 (st.innerStreams.getD idx default)
      pl (pruneFlag (searchStep ⟨true, fav, o1⟩ pos idx c k st).1 (pos + 1)
        (searchStep ⟨true, fav, o1⟩ pos idx c k st).2.1) rfl
    have hd2 := descendTarget_of_plan (⟨true, fav, o2⟩ : Params)
      (searchStep ⟨true, fav, o2⟩ pos idx c k st).1 (st.innerStreams.getD idx default)
      pl (pruneFlag (searchStep ⟨true, fav, o2⟩ pos idx c k st).1 (pos + 1)
        (searchStep ⟨true, fav, o2⟩ pos idx c k st).2.1) rfl
    cases h2 : planTarget ⟨true, fav, o1⟩ (searchStep ⟨true, fav, o1⟩ pos idx c k st).1 with
    | none =>
      have h2b : planTarget ⟨true, fav, o2⟩
          (searchStep ⟨true, fav, o2⟩ pos idx c k st).1 = none := by
        rw [searchStep_oracle_indep fav o1 o2, planTarget_oracle_indep fav o1 o2]
        exact h2
      rw [findBestOrder_unfold_nn _ n pos idx pl c k st hd1 h2,
        findBestOrder_unfold_nn _ n pos idx pl c k st hd2 h2b,
        searchStep_oracle_indep fav o1 o2]
    | some j =>
      have h2b : planTarget ⟨true, fav, o2⟩
          (searchStep ⟨true, fav, o2⟩ pos idx c k st).1 = some j := by
        rw [searchStep_oracle_indep fav o1 o2, planTarget_oracle_indep fav o1 o2]
        exact h2
      rw [findBestOrder_unfold_np _ n pos idx pl c k st j hd1 h2,
        findBestOrder_unfold_np _ n pos idx pl c k st j hd2 h2b,
        searchStep_oracle_indep fav o1 o2,
        ih (pos + 1) j pl (searchStep ⟨true, fav, o1⟩ pos idx c k st).2.1
          (searchStep ⟨true, fav, o1⟩ pos idx c k st).2.2
          (searchStep ⟨true, fav, o1⟩ pos idx c k st).1]

theorem seedLoopStep_oracle_indep (fav : Bool) (o1 o2 : Oracle) (f n : Nat)
    (acc : SeedLoopAcc) (idx : Nat) :
    seedLoopStep ⟨true, fav, o1⟩ f n acc idx
      = seedLoopStep ⟨true, fav, o2⟩ f n acc idx := by
  unfold seedLoopStep
  rw [findBestOrder_oracle_indep fav o1 o2 acc.st.innerStreams.length 0 idx [] 0 1
    acc.st]

theorem seedLoopFold_oracle_indep (fav : Bool) (o1 o2 : Oracle) (f n : Nat)
    (l : List Nat) :
    ∀ acc : SeedLoopAcc,
      l.foldl (seedLoopStep ⟨true, fav, o1⟩ f n) acc
        = l.foldl (seedLoopStep ⟨true, fav, o2⟩ f n) acc := by
  induction l with
  | nil => intro acc; rfl
  | cons x xs ih =>
    intro acc
    rw [List.foldl_cons, List.foldl_cons, seedLoopStep_oracle_indep fav o1 o2, ih]

theorem findJoinOrder_oracle_indep (fav : Bool) (o1 o2 : Oracle) (st : SearchState) :
    findJoinOrder ⟨true, fav, o1⟩ st = findJoinOrder ⟨true, fav, o2⟩ st := by
  by_cases h0 : (firstPass st).st.bestCount = 0
  · rw [findJoinOrder_acc_pos _ st h0, findJoinOrder_acc_pos _ st h0]
    unfold seedLoop
    rw [seedLoopFold_oracle_indep fav o1 o2]
  · rw [findJoinOrder_acc_neg _ st h0, findJoinOrder_acc_neg _ st h0]

/-! Concrete instances used to witness the theorems and to exhibit the behaviour of
boundary cases. -/

/-- A cost oracle under which `0 → 2 → 1` is cheap (stream 1 probed with 2 active costs
one, stream 2 probed with 0 active costs one) while the process-list order `0 → 1 → 2`
is expensive. -/
def oC1 : Oracle where
  cost s A _ :=
    if s = 0 then 10
    else if s = 1 then (if A.contains 2 then 1 else 100)
    else (if A.contains 0 then 1 else 5)
  selectivity _ _ _ := 1
  cardinality _ := 1

/-- A uniform oracle: every probe costs one with unit cardinality. -/
def oU : Oracle where
  cost _ _ _ := 1
  selectivity _ _ _ := 1
  cardinality _ := 1

def s0 : StreamInfo :=
  { stream := 0, baseCost := 10, previousExpectedStreams := 2,
    indexedRelationships := [⟨1, false, 1, 1⟩, ⟨2, false, 2, 1⟩] }

def s1 : StreamInfo :=
  { stream := 1, baseCost := 40, previousExpectedStreams := 1,
    indexedRelationships := [⟨0, false, 3, 1⟩] }

def s2 : StreamInfo :=
  { stream := 2, baseCost := 40, previousExpectedStreams := 1,
    indexedRelationships := [⟨0, false, 3, 1⟩] }

def stC1 : SearchState :=
  { innerStreams := [s0, s1, s2], joinedStreams := [{}, {}, {}],
    bestCount := 0, bestCost := 0, remainingStreams := 0, active := [] }

def pC1 : Params := { plan := false, favorFirstRows := false, oracle := oC1 }

/-- `stC1` as a single `findBestOrder` call sees it (`remainingStreams` counted). -/
def stC1r : SearchState := { stC1 with remainingStreams := 3 }

/-- A state with a known full ordering of cost five and two remaining streams. -/
def stC2 : SearchState :=
  { innerStreams := [], joinedStreams := [], bestCount := 2, bestCost := 5,
    remainingStreams := 2, active := [] }

def s4 : StreamInfo := { stream := 4, baseCost := 9 }

def s7 : StreamInfo := { stream := 7, baseCost := 3 }

/-- Two independent streams; the cheaper one (stream 7) must be the whole answer. -/
def stC3 : SearchState :=
  { innerStreams := [s4, s7], joinedStreams := [{}, {}], bestCount := 0,
    bestCost := 0, remainingStreams := 0, active := [] }

def pC3 : Params := { plan := false, favorFirstRows := false, oracle := oU }

def sA : StreamInfo := { stream := 0, baseCost := 10 }

def sB : StreamInfo := { stream := 1, baseCost := 5 }

/-- Two independent streams under a PLAN: the declared order is 0 then 1. -/
def stC4 : SearchState :=
  { innerStreams := [sA, sB], joinedStreams := [{}, {}], bestCount := 0,
    bestCost := 0, remainingStreams := 0, active := [] }

def pC4 : Params := { plan := true, favorFirstRows := false, oracle := oU }

/-- Unfiltered navigational stream: visited first, its running `currentFilter == filters`
comparison is `0 == 0`. -/
def sE : StreamInfo :=
  { stream := 0, baseCost := 5, previousExpectedStreams := 1, baseNavigated := true,
    indexedRelationships := [⟨1, false, 1, 1⟩] }

/-- Filtered navigational stream: visited second, it raises the final `filters` total
to one. -/
def sD : StreamInfo :=
  { stream := 1, baseCost := 5, baseIndexes := 1, previousExpectedStreams := 1,
    baseNavigated := true, indexedRelationships := [⟨0, false, 1, 1⟩] }

def stC5 : SearchState :=
  { innerStreams := [sE, sD], joinedStreams := [{}, {}], bestCount := 0,
    bestCost := 0, remainingStreams := 0, active := [] }

def pC5 : Params := { plan := false, favorFirstRows := true, oracle := oU }

def s9 : StreamInfo := { stream := 9, used := true, previousExpectedStreams := 1 }

def s5 : StreamInfo := { stream := 5, baseCost := 1 }

/-- A store holding a stream that was already marked used before the call. -/
def stC7 : SearchState :=
  { innerStreams := [s9, s5], joinedStreams := [{}, {}], bestCount := 0,
    bestCost := 0, remainingStreams := 0, active := [] }

def tA : StreamInfo :=
  { stream := 0, previousExpectedStreams := 1,
    indexedRelationships := [⟨2, false, 1, 1⟩] }

def tB : StreamInfo := { stream := 1, previousExpectedStreams := 1 }

def tC : StreamInfo :=
  { stream := 2, previousExpectedStreams := 1,
    indexedRelationships := [⟨0, false, 1, 1⟩, ⟨1, false, 1, 1⟩] }

/-- Under a PLAN the order 0, 1, 2 is returned although stream 1 is the target of no
earlier stream's relationships. -/
def stC8 : SearchState :=
  { innerStreams := [tA, tB, tC], joinedStreams := [{}, {}, {}], bestCount := 0,
    bestCost := 0, remainingStreams := 0, active := [] }

def pC8 : Params := { plan := true, favorFirstRows := false, oracle := oU }

def s3u : StreamInfo := { stream := 3, used := true }

/-- A store whose only stream is already used: no candidates remain. -/
def stC9 : SearchState :=
  { innerStreams := [s3u], joinedStreams := [{}], bestCount := 0, bestCost := 0,
    remainingStreams := 0, active := [] }

/-! The claims. -/

/-- C1: the greedy search is not optimal over all reachable full permutations (the
claim's optimality statement fails, see the counterexample); what holds is minimality
over the full orderings the search actually enumerates: at the return of
`findBestOrder`, the final `bestCost` is a lower bound of the cost of every full
ordering visited during the call (the ghost cost trace of the embedding). -/
theorem claim_C1_amended (P : Params) (fuel pos idx : Nat)
    (pl : List IndexRelationship) (c k : ℚ) (st : SearchState)
    (hnd : (idsOf st.innerStreams).Nodup)
    (hidx : idx < st.innerStreams.length)
    (hunused : (st.innerStreams.getD idx default).used = false)
    (hpos : pos + unusedCount st.innerStreams = st.remainingStreams)
    (hrem : st.remainingStreams ≤ st.joinedStreams.length)
    (hpath : PathOK st pos) (hbest : BestOK st) :
    ∀ cc ∈ (findBestOrder P fuel pos idx pl c k st).2,
      (findBestOrder P fuel pos idx pl c k st).1.bestCost ≤ cc :=
  (findBestOrder_master P fuel pos idx pl c k st hnd hidx hunused hpos hrem hpath
    hbest).2.2.2.1

/-- Witness of C1 at a concrete input: the seed-0 search of `stC1r` enumerates one full
ordering, of cost 111, and its final `bestCost` is no larger. -/
theorem claim_C1_witness :
    (idsOf stC1r.innerStreams).Nodup ∧
    (findBestOrder pC1 3 0 0 [] 0 1 stC1r).2 = [111] ∧
    (findBestOrder pC1 3 0 0 [] 0 1 stC1r).1.bestCost ≤ 111 :=
  ⟨by decide, by decide,
   claim_C1_amended pC1 3 0 0 [] 0 1 stC1r (by decide) (by decide) (by decide)
     (by decide) (by decide) ⟨by decide, by decide⟩
     ⟨by decide, by decide, by decide⟩ 111 (by decide)⟩

/-- Counterexample to C1 as stated: on `stC1` the search returns `bestCost = 16`,
yet the full permutation `[0, 2, 1]` is reachable through the dependency graph and its
cumulative estimated cost is 12. -/
theorem claim_C1_counterexample :
    (findJoinOrder pC1 stC1).result = true ∧
    reachableFullOrder stC1.innerStreams [0, 2, 1] ∧
    orderCost pC1.oracle [] true 0 1 [0, 2, 1]
      < (findJoinOrder pC1 stC1).state.bestCost :=
  ⟨by decide, by decide, by decide⟩

/-- C2: the recursion cut-off of `findBestOrder` is strict: the `done` flag is set
exactly when every remaining stream is placed, or a full ordering is already known and
its recorded cost is strictly below the new cumulative cost; at equality
(`new_cost = bestCost`) the prefix is still extended. -/
theorem claim_C2_amended (st : SearchState) (position1 : Nat) (newCost : ℚ) :
    pruneFlag st position1 newCost = true ↔
      position1 = st.remainingStreams ∨
      (st.bestCount = st.remainingStreams ∧ st.bestCost < newCost) := by
  unfold pruneFlag
  simp

/-- Counterexample to C2 as stated: with a full ordering known at cost 5, a prefix of
new cost 5 satisfies the claim's cut-off condition (`new_cost >= bestCost`) but the
code's `done` flag stays false. -/
theorem claim_C2_counterexample :
    stC2.bestCount = stC2.remainingStreams ∧ stC2.bestCost ≤ (5 : ℚ) ∧
    (1 : Nat) ≠ stC2.remainingStreams ∧ pruneFlag stC2 1 5 = false := by
  decide

/-- C3: when a not-yet-used independent stream exists, the seed loop is never entered
(no seed trials) and the returned order is exactly one stream: the earliest
strict-minimum of `baseCost` among the unused independent candidates, in store order. -/
theorem claim_C3_independent (P : Params) (st : SearchState)
    (hrem : unusedCount st.innerStreams ≤ st.joinedStreams.length)
    (hex : ∃ i ∈ st.innerStreams, i.used = false ∧ i.isIndependent = true) :
    ∃ l1 c l2, seedCandidates st.innerStreams = l1 ++ c :: l2 ∧
      (∀ t ∈ l1, c.baseCost < t.baseCost) ∧
      (∀ t ∈ l2, c.baseCost ≤ t.baseCost) ∧
      (findJoinOrder P st).tried = [] ∧
      (findJoinOrder P st).bestStreams = [c.stream] := by
  obtain ⟨i, hil, hiu, hii⟩ := hex
  have hcand : seedCandidates st.innerStreams ≠ [] := by
    have hmem : i ∈ seedCandidates st.innerStreams :=
      List.mem_filter.mpr ⟨hil, by simp [hiu, hii]⟩
    exact List.ne_nil_of_mem hmem
  obtain ⟨c, hc⟩ := seedChoice_isSome_of_candidates st.innerStreams hcand
  obtain ⟨l1, l2, hsplit, hlt, hle⟩ := seedChoice_none_spec st.innerStreams c hc
  have hcmem : c ∈ seedCandidates st.innerStreams := by
    rw [hsplit]
    exact List.mem_append.mpr (Or.inr (List.mem_cons_self c l2))
  obtain ⟨hcl, hcu, _⟩ := mem_seedCandidates st.innerStreams c hcmem
  have hu1 : 0 < unusedCount st.innerStreams :=
    unusedCount_pos_of_mem st.innerStreams c hcl hcu
  have hlen : 0 < st.joinedStreams.length := by omega
  obtain ⟨hb1, hb2, hb3⟩ := firstPass_best_some st hlen c hc
  have h0 : ¬(firstPass st).st.bestCount = 0 := by rw [hb1]; omega
  have hfl := firstPass_joined_length st
  have hble : (firstPass st).st.bestCount ≤ (firstPass st).st.joinedStreams.length := by
    rw [hb1, hfl]
    exact hlen
  refine ⟨l1, c, l2, hsplit, hlt, hle, ?_, ?_⟩
  · rw [findJoinOrder_acc_neg P st h0]
    rfl
  · rw [findJoinOrder_acc_neg P st h0]
    have hspec := (joinOrderTail_spec (⟨(firstPass st).st, [], [], false⟩ : SeedLoopAcc)
      hble).1
    rw [hspec]
    show bestSlotsOf (firstPass st).st = [c.stream]
    rw [bestSlotsOf_count_one _ hb1 (by rw [hfl]; exact hlen), hb3]

/-- Witness of C3 at a concrete input: with unused independent streams 4 (cost 9) and
7 (cost 3), the returned order is `[7]` and no seed is tried. -/
theorem claim_C3_witness :
    (∃ i ∈ stC3.innerStreams, i.used = false ∧ i.isIndependent = true) ∧
    (∃ l1 c l2, seedCandidates stC3.innerStreams = l1 ++ c :: l2 ∧
      (∀ t ∈ l1, c.baseCost < t.baseCost) ∧
      (∀ t ∈ l2, c.baseCost ≤ t.baseCost) ∧
      (findJoinOrder pC3 stC3).tried = [] ∧
      (findJoinOrder pC3 stC3).bestStreams = [c.stream]) :=
  ⟨by decide, claim_C3_independent pC3 stC3 (by decide) (by decide)⟩

/-- C4: the parts of the claim that hold: under a PLAN the StreamInfo list is never
sorted, and the outcome of `findJoinOrder` is identical under any two oracles (no cost
estimate influences it).  The claim's order statement itself fails (see the
counterexample): an independent stream short-circuits the search, so the returned
order need not be the not-yet-used input streams in declared order. -/
theorem claim_C4_amended (l : List StreamInfo) (fav : Bool) (o1 o2 : Oracle)
    (st : SearchState) :
    calculateStreamInfoSort true l = l ∧
    findJoinOrder ⟨true, fav, o1⟩ st = findJoinOrder ⟨true, fav, o2⟩ st := by
  constructor
  · unfold calculateStreamInfoSort
    rw [if_neg]
    rintro ⟨h, -⟩
    cases h
  · exact findJoinOrder_oracle_indep fav o1 o2 st

/-- Counterexample to C4 as stated: under a PLAN with two independent streams declared
as 0 then 1, the returned order is `[1]` (the cheaper independent seed), not the
not-yet-used input order `[0, 1]`. -/
theorem claim_C4_counterexample :
    pC4.plan = true ∧
    (findJoinOrder pC4 stC4).bestStreams = [1] ∧
    unusedIds stC4.innerStreams = [0, 1] := by
  decide

/-- C5: the seed-loop guard compares each stream's `currentFilter` against the FINAL
totals of the first pass's `filters` and `navigations` counters (the counters are not
re-run per seed), not the running value at the stream's first-pass visit: the tried
seeds are exactly the unused streams passing `seedGuard` with the final totals. -/
theorem claim_C5_amended (P : Params) (st : SearchState)
    (hplan : P.plan = false)
    (hnone : seedCandidates st.innerStreams = []) :
    (findJoinOrder P st).tried
      = (List.range st.innerStreams.length).filter
          (fun idx => decide (seedGuard P (firstPass st).filters
            (firstPass st).navigations st.innerStreams idx)) := by
  have hfi := firstPass_inner st
  have h0 : (firstPass st).st.bestCount = 0 :=
    firstPass_bestCount_of_no_candidates st hnone
  rw [findJoinOrder_acc_pos P st h0]
  have ht := (seedLoopFold_tried P hplan (firstPass st).filters
    (firstPass st).navigations st.innerStreams
    (List.range (firstPass st).st.innerStreams.length)
    ⟨(firstPass st).st, [], [], false⟩ rfl hfi).2.2
  have hlen : (firstPass st).st.innerStreams.length = st.innerStreams.length := by
    rw [hfi]
  rw [hlen] at ht
  show (seedLoop P (firstPass st).filters (firstPass st).navigations
    (firstPass st).st).tried = _
  unfold seedLoop
  rw [hlen]
  exact ht.trans (List.nil_append _)

/-- Witness of C5 at a concrete input: on `stC5` (no independent stream, favor first
rows, one navigational stream) the tried seeds match the final-total guard. -/
theorem claim_C5_witness :
    pC5.plan = false ∧ seedCandidates stC5.innerStreams = [] ∧
    (findJoinOrder pC5 stC5).tried
      = (List.range stC5.innerStreams.length).filter
          (fun idx => decide (seedGuard pC5 (firstPass stC5).filters
            (firstPass stC5).navigations stC5.innerStreams idx)) :=
  ⟨rfl, by decide, claim_C5_amended pC5 stC5 rfl (by decide)⟩

/-- Counterexample to C5 as stated: on `stC5` both streams are running-compatible in
the claim's sense (`currentFilter == filters` at their first-pass visit), yet only
stream position 1 is tried as a seed: stream 0 is rejected against the final totals. -/
theorem claim_C5_counterexample :
    pC5.favorFirstRows = true ∧ (firstPass stC5).navigations = 1 ∧
    (stC5.innerStreams.getD 0 default).used = false ∧
    specRunningCompatible 0 stC5.innerStreams = [true, true] ∧
    (findJoinOrder pC5 stC5).tried = [1] := by
  decide

/-- C6: a `findBestOrder` call restores every `used` flag of the StreamInfo store and
every active bit of the scratch to their values at entry, at any recursion depth. -/
theorem claim_C6_frame (P : Params) (fuel pos idx : Nat)
    (pl : List IndexRelationship) (c k : ℚ) (st : SearchState)
    (hnd : (st.innerStreams.map (·.stream)).Nodup)
    (hact : ∀ s ∈ st.innerStreams, s.used = false → s.stream ∉ st.active)
    (hidx : idx < st.innerStreams.length)
    (hunused : (st.innerStreams.getD idx default).used = false) :
    (findBestOrder P fuel pos idx pl c k st).1.innerStreams.map (·.used)
      = st.innerStreams.map (·.used) ∧
    (findBestOrder P fuel pos idx pl c k st).1.active = st.active :=
  ⟨by rw [findBestOrder_innerStreams],
   findBestOrder_active P fuel pos idx pl c k st hnd hact hidx hunused⟩

/-- Witness of C6 at a concrete input: the seed-0 search of `stC1r` sets and clears
`used` flags and active bits, and both are restored at return. -/
theorem claim_C6_witness :
    (stC1r.innerStreams.map (·.stream)).Nodup ∧
    (findBestOrder pC1 3 0 0 [] 0 1 stC1r).1.innerStreams.map (·.used)
        = stC1r.innerStreams.map (·.used) ∧
    (findBestOrder pC1 3 0 0 [] 0 1 stC1r).1.active = stC1r.active :=
  ⟨by decide,
   claim_C6_frame pC1 3 0 0 [] 0 1 stC1r (by decide) (by decide) (by decide)
     (by decide)⟩

/-- C7: on success the returned order is nonempty, duplicate-free, and no longer
than the number of not-yet-used streams; every returned identifier is marked used in
the final store.  The claim's "and for no other stream" fails (see the
counterexample): a stream already used at entry stays used without being returned;
what holds is that the used identifiers at return are exactly those used at entry
plus those returned. -/
theorem claim_C7_amended (P : Params) (st : SearchState)
    (hnd : (idsOf st.innerStreams).Nodup)
    (hrem : unusedCount st.innerStreams ≤ st.joinedStreams.length)
    (hres : (findJoinOrder P st).result = true) :
    (findJoinOrder P st).bestStreams ≠ [] ∧
    (findJoinOrder P st).bestStreams.Nodup ∧
    (findJoinOrder P st).bestStreams.length ≤ unusedCount st.innerStreams ∧
    (∀ id, id ∈ usedIdsOf (findJoinOrder P st).state.innerStreams ↔
      id ∈ usedIdsOf st.innerStreams ∨ id ∈ (findJoinOrder P st).bestStreams) := by
  obtain ⟨A, hAi, hAr, hAl, hAok, hAconn, hbs, hmark, hresq⟩ :=
    findJoinOrder_core P st hnd hrem
  have hne : bestSlotsOf A ≠ [] := by
    intro hnil
    rw [hresq, hnil] at hres
    simp at hres
  refine ⟨by rw [hbs]; exact hne, by rw [hbs]; exact hAok.nodup, ?_, ?_⟩
  · rw [hbs]
    have h1 : (bestSlotsOf A).length ≤ A.bestCount := by
      unfold bestSlotsOf
      rw [List.length_take]
      exact min_le_left _ _
    have h2 := hAok.le_remaining
    rw [hAr] at h2
    omega
  · intro id
    rw [hmark, usedIds_markMany]
    constructor
    · rintro (h | ⟨h1, _⟩)
      · exact Or.inl h
      · refine Or.inr ?_
        rw [hbs]
        exact h1
    · rintro (h | h)
      · exact Or.inl h
      · rw [hbs] at h
        have hin := hAok.mem_ids id h
        rw [hAi] at hin
        exact Or.inr ⟨h, hin⟩

/-- Witness of C7 at a concrete input: on `stC7` the call succeeds with order `[5]`,
one stream, distinct, marked used. -/
theorem claim_C7_witness :
    (findJoinOrder pC3 stC7).result = true ∧
    ((findJoinOrder pC3 stC7).bestStreams ≠ [] ∧
     (findJoinOrder pC3 stC7).bestStreams.Nodup ∧
     (findJoinOrder pC3 stC7).bestStreams.length ≤ unusedCount stC7.innerStreams ∧
     (∀ id, id ∈ usedIdsOf (findJoinOrder pC3 stC7).state.innerStreams ↔
       id ∈ usedIdsOf stC7.innerStreams ∨ id ∈ (findJoinOrder pC3 stC7).bestStreams)) :=
  ⟨by decide, claim_C7_amended pC3 stC7 (by decide) (by decide) (by decide)⟩

/-- Counterexample to C7 as stated: stream 9 of `stC7` is used at entry; the call
returns true with order `[5]`, and 9 is still marked used although it is not in the
returned order. -/
theorem claim_C7_counterexample :
    (findJoinOrder pC3 stC7).result = true ∧
    (findJoinOrder pC3 stC7).bestStreams = [5] ∧
    9 ∈ usedIdsOf (findJoinOrder pC3 stC7).state.innerStreams ∧
    9 ∉ (findJoinOrder pC3 stC7).bestStreams := by
  decide

/-- C8: without a PLAN, every returned order is connected through the indexed
relationships: each stream after the first is a relationship target of an earlier
stream of the order (orders of length at most one hold vacuously, which covers the
independent-seed exemption).  Under a PLAN the property fails, see the
counterexample. -/
theorem claim_C8_amended (P : Params) (st : SearchState) (hplan : P.plan = false)
    (hnd : (idsOf st.innerStreams).Nodup)
    (hrem : unusedCount st.innerStreams ≤ st.joinedStreams.length) :
    connectedOrder st.innerStreams (findJoinOrder P st).bestStreams := by
  obtain ⟨A, hAi, hAr, hAl, hAok, hAconn, hbs, hmark, hresq⟩ :=
    findJoinOrder_core P st hnd hrem
  rw [hbs]
  exact hAconn hplan

/-- Witness of C8 at a concrete input: the order returned on `stC1` (no PLAN) is
connected through the indexed relationships. -/
theorem claim_C8_witness :
    pC1.plan = false ∧
    connectedOrder stC1.innerStreams (findJoinOrder pC1 stC1).bestStreams :=
  ⟨rfl, claim_C8_amended pC1 stC1 rfl (by decide) (by decide)⟩

/-- Counterexample to C8 as stated: under a PLAN, `stC8` returns the order
`[0, 1, 2]` of length three, but stream 1 is a relationship target of no earlier
stream of the order. -/
theorem claim_C8_counterexample :
    pC8.plan = true ∧ (findJoinOrder pC8 stC8).result = true ∧
    (findJoinOrder pC8 stC8).bestStreams = [0, 1, 2] ∧
    ¬connectedAt stC8.innerStreams [0, 1, 2] 1 := by
  decide

/-- C9: when every StreamInfo is already used (in particular when the store is empty),
`findJoinOrder` returns false with an empty order, trying no seed, and no error
arises. -/
theorem claim_C9_empty (P : Params) (st : SearchState)
    (hall : ∀ i ∈ st.innerStreams, i.used = true) :
    (findJoinOrder P st).result = false ∧
    (findJoinOrder P st).bestStreams = [] ∧
    (findJoinOrder P st).tried = [] := by
  have hcand : seedCandidates st.innerStreams = [] := by
    unfold seedCandidates
    rw [List.filter_eq_nil_iff]
    intro a ha
    simp [hall a ha]
  have h0 := firstPass_bestCount_of_no_candidates st hcand
  rw [findJoinOrder_acc_pos P st h0]
  have hid := seedLoopFold_allUsed P (firstPass st).filters (firstPass st).navigations
    (List.range (firstPass st).st.innerStreams.length)
    ⟨(firstPass st).st, [], [], false⟩
    (by rw [firstPass_inner]; exact hall)
    (fun idx hidx => List.mem_range.mp hidx)
  have hsl : seedLoop P (firstPass st).filters (firstPass st).navigations
      (firstPass st).st = ⟨(firstPass st).st, [], [], false⟩ := hid
  rw [hsl]
  have hble : (firstPass st).st.bestCount ≤ (firstPass st).st.joinedStreams.length := by
    rw [h0]
    exact Nat.zero_le _
  obtain ⟨hb, hm, hr, hres, htr, hfc⟩ :=
    joinOrderTail_spec (⟨(firstPass st).st, [], [], false⟩ : SeedLoopAcc) hble
  have hempty : bestSlotsOf (firstPass st).st = [] := bestSlotsOf_of_count_zero _ h0
  refine ⟨?_, ?_, htr⟩
  · rw [hres]
    show (!(bestSlotsOf (firstPass st).st).isEmpty) = false
    rw [hempty]
    rfl
  · rw [hb]
    exact hempty

/-- Witness of C9 at a concrete input: `stC9` holds one stream, already used; the call
returns false with an empty order and no seed trial. -/
theorem claim_C9_witness :
    (∀ i ∈ stC9.innerStreams, i.used = true) ∧
    (findJoinOrder pC3 stC9).result = false ∧
    (findJoinOrder pC3 stC9).bestStreams = [] ∧
    (findJoinOrder pC3 stC9).tried = [] := by
  have h := claim_C9_empty pC3 stC9 (by decide)
  exact ⟨by decide, h.1, h.2.1, h.2.2⟩

/-- C10: the recursion of `findBestOrder` needs no more depth than the number of
not-yet-used streams: with any fuel at least that number the result is the same as
with exactly that number, so the source's recursion (whose depth is bounded by the
unused count, each level marking its stream used before descending) terminates. -/
theorem claim_C10_termination (P : Params) (pos idx : Nat)
    (pl : List IndexRelationship) (c k : ℚ) (st : SearchState)
    (hidx : idx < st.innerStreams.length)
    (hunused : (st.innerStreams.getD idx default).used = false)
    (fuel : Nat) (hfuel : unusedCount st.innerStreams ≤ fuel) :
    findBestOrder P fuel pos idx pl c k st
      = findBestOrder P (unusedCount st.innerStreams) pos idx pl c k st :=
  findBestOrder_fuel_ge P pos idx pl c k st hidx hunused fuel hfuel

/-- Witness of C10 at a concrete input: on `stC1r` (three unused streams) fuel five
and fuel three give the same search result. -/
theorem claim_C10_witness :
    unusedCount stC1r.innerStreams ≤ 5 ∧
    findBestOrder pC1 5 0 0 [] 0 1 stC1r
      = findBestOrder pC1 (unusedCount stC1r.innerStreams) 0 0 [] 0 1 stC1r :=
  ⟨by decide,
   claim_C10_termination pC1 0 0 [] 0 1 stC1r (by decide) (by decide) 5 (by decide)⟩

end InnerJoin
